import Mathlib

/-!
# Indexed dataloop construction (`dataloop_create_indexed.c`)

A shallow embedding of the three functions of
`src/mpi/datatype/dataloop/dataloop_create_indexed.c`:

* `MPIR_Type_indexed_count_contig`  (the contig-run counter),
* `DLOOP_Type_indexed_array_copy`   (the compacting array copier),
* `MPIR_Dataloop_create_indexed`    (the builder that selects a representation).

Modelling conventions.

* `MPI_Aint` (and the `int` displacements, which the code casts to `MPI_Aint`
  before use) are mathematical integers: signed overflow is undefined in C, so
  the model describes the executions in which no arithmetic overflows.
* A C array is a list; every array access is checked against the length of the
  list and an access outside it ends the computation with an error.  The
  `count` argument is kept separate from the arrays, as in the source.
* A `for (i = s; i < count; ++i)` loop is a recursion on the number of
  iterations that are left, `count - s`, with the loop variable as a second
  argument.
* `MPIR_Assert` ends the computation with an error when its condition fails.
* Functions and macros of other files are fields of `DLOOP_Collaborators`.
-/

namespace Dataloop

/-- The wide signed integer type of counts, lengths and displacements. -/
abbrev MPI_Aint := Int

/-- Datatype handles. -/
abbrev MPI_Datatype := Nat

/-- The ways in which a run of the code can stop without returning. -/
inductive DLOOP_Error where
  /-- an input array was read at an index outside the array -/
  | input_index_out_of_bounds
  /-- an output array was read or written at an index outside the array -/
  | output_index_out_of_bounds
  /-- `MPIR_Assert(cur_idx < contig_count)` failed (inside the copy loop) -/
  | assert_cur_idx_lt_contig_count
  /-- `MPIR_Assert(cur_idx == contig_count - 1)` failed (after the copy loop) -/
  | assert_cur_idx_eq_contig_count_minus_1
  deriving DecidableEq, Repr

/-- Read `a[i]` of an input array. -/
def in_read (a : List MPI_Aint) (i : Nat) : Except DLOOP_Error MPI_Aint :=
  match a[i]? with
  | some v => .ok v
  | none => .error .input_index_out_of_bounds

/-- Read `a[i]` of an output array. -/
def out_read (a : List MPI_Aint) (i : Nat) : Except DLOOP_Error MPI_Aint :=
  match a[i]? with
  | some v => .ok v
  | none => .error .output_index_out_of_bounds

/-- Write `a[i] = v` in an output array. -/
def out_write (a : List MPI_Aint) (i : Nat) (v : MPI_Aint) :
    Except DLOOP_Error (List MPI_Aint) :=
  if i < a.length then .ok (a.set i v) else .error .output_index_out_of_bounds

/-- The loop `for (first = 0; first < count; ++first) if (blocklength_array[first]) break;`
that opens all three functions.  The first argument is the number of iterations
left, the second the current value of `first`; the result is the value of
`first` when the loop ends. -/
def skip_zero_blocks (blocklength_array : List MPI_Aint) :
    Nat → Nat → Except DLOOP_Error Nat
  | 0, first => .ok first
  | n + 1, first =>
    match in_read blocklength_array first with
    | .error e => .error e
    | .ok b => if b ≠ 0 then .ok first else skip_zero_blocks blocklength_array n (first + 1)

/-- The loop of `MPIR_Type_indexed_count_contig` for displacements in element
units (source lines 310-322).  Arguments: iterations left, `i`, `cur_tdisp`,
`cur_blklen`, `contig_count`; the result is the final `contig_count`. -/
def count_contig_loop_elements (blocklength_array displacement_array : List MPI_Aint) :
    Nat → Nat → MPI_Aint → MPI_Aint → MPI_Aint → Except DLOOP_Error MPI_Aint
  | 0, _, _, _, contig_count => .ok contig_count
  | n + 1, i, cur_tdisp, cur_blklen, contig_count =>
    match in_read blocklength_array i with
    | .error e => .error e
    | .ok b =>
      if b = 0 then
        count_contig_loop_elements blocklength_array displacement_array n (i + 1)
          cur_tdisp cur_blklen contig_count
      else
        match in_read displacement_array i with
        | .error e => .error e
        | .ok d =>
          if cur_tdisp + cur_blklen = d then
            count_contig_loop_elements blocklength_array displacement_array n (i + 1)
              cur_tdisp (cur_blklen + b) contig_count
          else
            count_contig_loop_elements blocklength_array displacement_array n (i + 1)
              d b (contig_count + 1)

/-- The loop of `MPIR_Type_indexed_count_contig` for displacements in bytes
(source lines 326-338).  Arguments: iterations left, `i`, `cur_bdisp`,
`cur_blklen`, `contig_count`; the result is the final `contig_count`. -/
def count_contig_loop_bytes (blocklength_array displacement_array : List MPI_Aint)
    (old_extent : MPI_Aint) :
    Nat → Nat → MPI_Aint → MPI_Aint → MPI_Aint → Except DLOOP_Error MPI_Aint
  | 0, _, _, _, contig_count => .ok contig_count
  | n + 1, i, cur_bdisp, cur_blklen, contig_count =>
    match in_read blocklength_array i with
    | .error e => .error e
    | .ok b =>
      if b = 0 then
        count_contig_loop_bytes blocklength_array displacement_array old_extent n (i + 1)
          cur_bdisp cur_blklen contig_count
      else
        match in_read displacement_array i with
        | .error e => .error e
        | .ok d =>
          if cur_bdisp + cur_blklen * old_extent = d then
            count_contig_loop_bytes blocklength_array displacement_array old_extent n (i + 1)
              cur_bdisp (cur_blklen + b) contig_count
          else
            count_contig_loop_bytes blocklength_array displacement_array old_extent n (i + 1)
              d b (contig_count + 1)

/-- The function `MPIR_Type_indexed_count_contig` (source lines 287-342). -/
def MPIR_Type_indexed_count_contig (count : MPI_Aint)
    (blocklength_array displacement_array : List MPI_Aint)
    (dispinbytes : Bool) (old_extent : MPI_Aint) : Except DLOOP_Error MPI_Aint :=
  if count ≠ 0 then
    match skip_zero_blocks blocklength_array count.toNat 0 with
    | .error e => .error e
    | .ok first =>
      if (first : MPI_Aint) = count then
        .ok 0
      else
        match in_read blocklength_array first with
        | .error e => .error e
        | .ok cur_blklen =>
          if !dispinbytes then
            match in_read displacement_array first with
            | .error e => .error e
            | .ok cur_tdisp =>
              count_contig_loop_elements blocklength_array displacement_array
                (count.toNat - (first + 1)) (first + 1) cur_tdisp cur_blklen 1
          else
            match in_read displacement_array first with
            | .error e => .error e
            | .ok cur_bdisp =>
              count_contig_loop_bytes blocklength_array displacement_array old_extent
                (count.toNat - (first + 1)) (first + 1) cur_bdisp cur_blklen 1
  else
    .ok 1

/-- The state of a copy loop: `out_blklen_array`, `out_disp_array`, `cur_idx`. -/
structure Copy_state where
  out_blklen_array : List MPI_Aint
  out_disp_array : List MPI_Aint
  cur_idx : Nat
  deriving DecidableEq, Repr

/-- The `else` branch shared by both copy loops (source lines 248-251 and
267-270): advance `cur_idx`, assert it is below `contig_count`, and seed the new
slot with the displacement `d` (already in bytes) and the block length `b`. -/
def copy_new_slot (contig_count : MPI_Aint) (s : Copy_state) (d b : MPI_Aint) :
    Except DLOOP_Error Copy_state :=
  let cur_idx := s.cur_idx + 1
  if (cur_idx : MPI_Aint) < contig_count then
    match out_write s.out_disp_array cur_idx d with
    | .error e => .error e
    | .ok od =>
      match out_write s.out_blklen_array cur_idx b with
      | .error e => .error e
      | .ok ob => .ok ⟨ob, od, cur_idx⟩
  else
    .error .assert_cur_idx_lt_contig_count

/-- The statement `out_blklen_array[cur_idx] += b` (source lines 246 and 265). -/
def copy_add_to_block (s : Copy_state) (b : MPI_Aint) : Except DLOOP_Error Copy_state :=
  match out_read s.out_blklen_array s.cur_idx with
  | .error e => .error e
  | .ok l =>
    match out_write s.out_blklen_array s.cur_idx (l + b) with
    | .error e => .error e
    | .ok ob => .ok ⟨ob, s.out_disp_array, s.cur_idx⟩

/-- The value `out_disp_array[cur_idx] + out_blklen_array[cur_idx] * old_extent`
that both copy loops compare with the next displacement. -/
def copy_block_end (s : Copy_state) (old_extent : MPI_Aint) : Except DLOOP_Error MPI_Aint :=
  match out_read s.out_disp_array s.cur_idx with
  | .error e => .error e
  | .ok o =>
    match out_read s.out_blklen_array s.cur_idx with
    | .error e => .error e
    | .ok l => .ok (o + l * old_extent)

/-- The loop of `DLOOP_Type_indexed_array_copy` for displacements in element
units (source lines 239-253).  Arguments: iterations left, `i`, the state. -/
def array_copy_loop_elements (in_blklen_array in_disp_array : List MPI_Aint)
    (contig_count old_extent : MPI_Aint) :
    Nat → Nat → Copy_state → Except DLOOP_Error Copy_state
  | 0, _, s => .ok s
  | n + 1, i, s =>
    match in_read in_blklen_array i with
    | .error e => .error e
    | .ok b =>
      if b = 0 then
        array_copy_loop_elements in_blklen_array in_disp_array contig_count old_extent
          n (i + 1) s
      else
        match copy_block_end s old_extent with
        | .error e => .error e
        | .ok e_cur =>
          match in_read in_disp_array i with
          | .error e => .error e
          | .ok d =>
            if e_cur = d * old_extent then
              match copy_add_to_block s b with
              | .error e => .error e
              | .ok s1 =>
                array_copy_loop_elements in_blklen_array in_disp_array contig_count
                  old_extent n (i + 1) s1
            else
              match copy_new_slot contig_count s (d * old_extent) b with
              | .error e => .error e
              | .ok s1 =>
                array_copy_loop_elements in_blklen_array in_disp_array contig_count
                  old_extent n (i + 1) s1

/-- The loop of `DLOOP_Type_indexed_array_copy` for displacements in bytes
(source lines 258-272).  Arguments: iterations left, `i`, the state. -/
def array_copy_loop_bytes (in_blklen_array in_disp_array : List MPI_Aint)
    (contig_count old_extent : MPI_Aint) :
    Nat → Nat → Copy_state → Except DLOOP_Error Copy_state
  | 0, _, s => .ok s
  | n + 1, i, s =>
    match in_read in_blklen_array i with
    | .error e => .error e
    | .ok b =>
      if b = 0 then
        array_copy_loop_bytes in_blklen_array in_disp_array contig_count old_extent
          n (i + 1) s
      else
        match copy_block_end s old_extent with
        | .error e => .error e
        | .ok e_cur =>
          match in_read in_disp_array i with
          | .error e => .error e
          | .ok d =>
            if e_cur = d then
              match copy_add_to_block s b with
              | .error e => .error e
              | .ok s1 =>
                array_copy_loop_bytes in_blklen_array in_disp_array contig_count
                  old_extent n (i + 1) s1
            else
              match copy_new_slot contig_count s d b with
              | .error e => .error e
              | .ok s1 =>
                array_copy_loop_bytes in_blklen_array in_disp_array contig_count
                  old_extent n (i + 1) s1

/-- The function `DLOOP_Type_indexed_array_copy` up to, and without, its final
assertion (source lines 226-273): the result is the two output arrays and the
final `cur_idx`. -/
def DLOOP_Type_indexed_array_copy_loops (count contig_count : MPI_Aint)
    (in_blklen_array in_disp_array out_blklen_array out_disp_array : List MPI_Aint)
    (dispinbytes : Bool) (old_extent : MPI_Aint) : Except DLOOP_Error Copy_state :=
  match skip_zero_blocks in_blklen_array count.toNat 0 with
  | .error e => .error e
  | .ok first =>
    match in_read in_blklen_array first with
    | .error e => .error e
    | .ok b =>
      match out_write out_blklen_array 0 b with
      | .error e => .error e
      | .ok ob =>
        match in_read in_disp_array first with
        | .error e => .error e
        | .ok d =>
          if !dispinbytes then
            match out_write out_disp_array 0 (d * old_extent) with
            | .error e => .error e
            | .ok od =>
              array_copy_loop_elements in_blklen_array in_disp_array contig_count old_extent
                (count.toNat - (first + 1)) (first + 1) ⟨ob, od, 0⟩
          else
            match out_write out_disp_array 0 d with
            | .error e => .error e
            | .ok od =>
              array_copy_loop_bytes in_blklen_array in_disp_array contig_count old_extent
                (count.toNat - (first + 1)) (first + 1) ⟨ob, od, 0⟩

/-- The function `DLOOP_Type_indexed_array_copy` (source lines 218-277): the
loops followed by `MPIR_Assert(cur_idx == contig_count - 1)`.  The result is
the pair of output arrays. -/
def DLOOP_Type_indexed_array_copy (count contig_count : MPI_Aint)
    (in_blklen_array in_disp_array out_blklen_array out_disp_array : List MPI_Aint)
    (dispinbytes : Bool) (old_extent : MPI_Aint) :
    Except DLOOP_Error (List MPI_Aint × List MPI_Aint) :=
  match DLOOP_Type_indexed_array_copy_loops count contig_count in_blklen_array in_disp_array
      out_blklen_array out_disp_array dispinbytes old_extent with
  | .error e => .error e
  | .ok s =>
    if (s.cur_idx : MPI_Aint) = contig_count - 1 then
      .ok (s.out_blklen_array, s.out_disp_array)
    else
      .error .assert_cur_idx_eq_contig_count_minus_1

/-- Modelled from the spec: the kind tags of a descriptor node (§3: "a kind tag
drawn from contiguous, block-indexed, indexed, (others out of scope)").  The
header that defines `DLOOP_KIND_INDEXED` is not part of the source. -/
inductive DLOOP_Kind_tag where
  | DLOOP_KIND_CONTIG
  | DLOOP_KIND_BLOCKINDEXED
  | DLOOP_KIND_INDEXED
  | DLOOP_KIND_OTHER
  deriving DecidableEq, Repr

/-- Modelled from the spec: the `kind` word of a node, a kind tag together with
the *final* flag (§3), which the source sets with `DLOOP_FINAL_MASK`; the header
that defines the mask is not part of the source. -/
structure DLOOP_Kind where
  tag : DLOOP_Kind_tag
  final : Bool
  deriving DecidableEq, Repr

/-- Modelled from the spec: the descriptor node `MPIR_Dataloop` (§3), with the
fields this file assigns; its declaration is not part of the source.
`count`, `total_blocks`, `blocksize_array` and `offset_array` are the members of
`loop_params.i_t`; `dataloop` stands for the nested descriptor that
`MPIR_Dataloop_alloc_and_copy` embeds, named by its handle. -/
structure MPIR_Dataloop where
  kind : DLOOP_Kind
  el_size : MPI_Aint
  el_extent : MPI_Aint
  el_type : MPI_Datatype
  count : MPI_Aint
  total_blocks : MPI_Aint
  blocksize_array : List MPI_Aint
  offset_array : List MPI_Aint
  dataloop : Option Nat
  deriving DecidableEq, Repr

/-- The two output parameters of the builder: `*dlp_p` and `*dlsz_p`. -/
structure DLOOP_Outputs where
  dlp : Option MPIR_Dataloop
  dlsz : MPI_Aint
  deriving DecidableEq, Repr

/-- The functions and macros of other files that the builder uses (spec §6).
A constructor takes the outputs as they are before the call and gives its
return code and the outputs after the call. -/
structure DLOOP_Collaborators where
  /-- the handle `MPI_INT` -/
  MPI_INT : MPI_Datatype
  /-- the macro `DLOOP_Handle_hasloop_macro` -/
  hasloop : MPI_Datatype → Bool
  /-- the macro `MPIR_Datatype_get_extent_macro` -/
  get_extent : MPI_Datatype → MPI_Aint
  /-- the macro `MPIR_Datatype_get_size_macro` -/
  get_size : MPI_Datatype → MPI_Aint
  /-- the macro `MPIR_Datatype_get_loopptr_macro` -/
  get_loopptr : MPI_Datatype → Nat
  /-- the macro `MPIR_Datatype_get_loopsize_macro` -/
  get_loopsize : MPI_Datatype → MPI_Aint
  /-- the macro `MPIR_Datatype_get_basic_type` -/
  get_basic_type : MPI_Datatype → MPI_Datatype
  /-- the allocator `MPIR_Dataloop_alloc(kind, count, &new_dlp, &new_loop_sz)`;
  `none` stands for a null `new_dlp` -/
  alloc : DLOOP_Kind_tag → MPI_Aint → Option (MPIR_Dataloop × MPI_Aint)
  /-- the allocator `MPIR_Dataloop_alloc_and_copy(kind, count, old_loop_ptr,
  old_loop_sz, &new_dlp, &new_loop_sz)` -/
  alloc_and_copy : DLOOP_Kind_tag → MPI_Aint → Nat → MPI_Aint → Option (MPIR_Dataloop × MPI_Aint)
  /-- the constructor `MPIR_Dataloop_create_contiguous(count, type, dlp_p, dlsz_p)` -/
  create_contiguous : MPI_Aint → MPI_Datatype → DLOOP_Outputs → MPI_Aint × DLOOP_Outputs
  /-- the constructor `MPIR_Dataloop_create_blockindexed(count, blklen, disp_array,
  dispinbytes, type, dlp_p, dlsz_p)`; `disp_array` is the array that starts at
  the pointer the constructor is given -/
  create_blockindexed : MPI_Aint → MPI_Aint → List MPI_Aint → Bool → MPI_Datatype →
    DLOOP_Outputs → MPI_Aint × DLOOP_Outputs

/-- The value `MPI_SUCCESS` (the builder "returns 0 on success, -1 on error"). -/
def MPI_SUCCESS : MPI_Aint := 0

/-- The loop `for (i = first; i < count; i++) old_type_count += blocklength_array[i];`
(source lines 74-76).  Arguments: iterations left, `i`, `old_type_count`. -/
def sum_blocklengths_loop (blocklength_array : List MPI_Aint) :
    Nat → Nat → MPI_Aint → Except DLOOP_Error MPI_Aint
  | 0, _, old_type_count => .ok old_type_count
  | n + 1, i, old_type_count =>
    match in_read blocklength_array i with
    | .error e => .error e
    | .ok b => sum_blocklengths_loop blocklength_array n (i + 1) (old_type_count + b)

/-- The loop of the uniform-block-length test (source lines 125-130):
`if (blocklength_array[i] != blksz) { blksz--; break; }`.  Arguments: iterations
left, `i`, `blksz`; the result is `blksz` after the loop. -/
def uniform_blksz_loop (blocklength_array : List MPI_Aint) :
    Nat → Nat → MPI_Aint → Except DLOOP_Error MPI_Aint
  | 0, _, blksz => .ok blksz
  | n + 1, i, blksz =>
    match in_read blocklength_array i with
    | .error e => .error e
    | .ok b =>
      if b ≠ blksz then .ok (blksz - 1)
      else uniform_blksz_loop blocklength_array n (i + 1) blksz

/-- The general indexed branch of `MPIR_Dataloop_create_indexed` (source lines
152-205), entered with the values of `is_builtin`, `old_extent`,
`old_type_count` and `contig_count` computed before it. -/
def create_indexed_general (env : DLOOP_Collaborators) (count : MPI_Aint)
    (blocklength_array displacement_array : List MPI_Aint) (dispinbytes : Bool)
    (oldtype : MPI_Datatype) (is_builtin : Bool)
    (old_extent old_type_count contig_count : MPI_Aint) (outs : DLOOP_Outputs) :
    Except DLOOP_Error (MPI_Aint × DLOOP_Outputs) :=
  let allocated : Option (MPIR_Dataloop × MPI_Aint) :=
    if is_builtin then
      match env.alloc .DLOOP_KIND_INDEXED count with
      | none => none
      | some (new_dlp, new_loop_sz) =>
        some ({ new_dlp with
                kind := ⟨.DLOOP_KIND_INDEXED, true⟩
                el_size := old_extent
                el_extent := old_extent
                el_type := oldtype }, new_loop_sz)
    else
      match env.alloc_and_copy .DLOOP_KIND_INDEXED contig_count
          (env.get_loopptr oldtype) (env.get_loopsize oldtype) with
      | none => none
      | some (new_dlp, new_loop_sz) =>
        some ({ new_dlp with
                kind := ⟨.DLOOP_KIND_INDEXED, false⟩
                el_size := env.get_size oldtype
                el_extent := env.get_extent oldtype
                el_type := env.get_basic_type oldtype }, new_loop_sz)
  match allocated with
  | none => .ok (-1, outs)
  | some (new_dlp, new_loop_sz) =>
    let new_dlp := { new_dlp with count := contig_count, total_blocks := old_type_count }
    match DLOOP_Type_indexed_array_copy count contig_count blocklength_array
        displacement_array new_dlp.blocksize_array new_dlp.offset_array
        dispinbytes old_extent with
    | .error e => .error e
    | .ok (blocksize_array, offset_array) =>
      let new_dlp := { new_dlp with
                       blocksize_array := blocksize_array
                       offset_array := offset_array }
      .ok (MPI_SUCCESS, ⟨some new_dlp, new_loop_sz⟩)

/-- The function `MPIR_Dataloop_create_indexed` (source lines 36-206).  The
result is the return code together with the outputs `*dlp_p`, `*dlsz_p`. -/
def MPIR_Dataloop_create_indexed (env : DLOOP_Collaborators) (icount : MPI_Aint)
    (blocklength_array displacement_array : List MPI_Aint) (dispinbytes : Bool)
    (oldtype : MPI_Datatype) (outs : DLOOP_Outputs) :
    Except DLOOP_Error (MPI_Aint × DLOOP_Outputs) :=
  let count := icount
  if count = 0 then
    .ok (env.create_contiguous 0 env.MPI_INT outs)
  else
    match skip_zero_blocks blocklength_array count.toNat 0 with
    | .error e => .error e
    | .ok first =>
      let is_builtin := if env.hasloop oldtype then false else true
      let old_extent := env.get_extent oldtype
      match sum_blocklengths_loop blocklength_array (count.toNat - first) first 0 with
      | .error e => .error e
      | .ok old_type_count =>
        match MPIR_Type_indexed_count_contig count blocklength_array displacement_array
            dispinbytes old_extent with
        | .error e => .error e
        | .ok contig_count =>
          if contig_count = 0 then
            .ok (env.create_contiguous 0 env.MPI_INT outs)
          else if contig_count = 1 then
            match in_read displacement_array first with
            | .error e => .error e
            | .ok d =>
              if d = 0 then
                .ok (env.create_contiguous old_type_count oldtype outs)
              else
                .ok (env.create_blockindexed 1 old_type_count
                      (displacement_array.drop first) dispinbytes oldtype outs)
          else
            match in_read blocklength_array first with
            | .error e => .error e
            | .ok blksz0 =>
              match uniform_blksz_loop blocklength_array (count.toNat - (first + 1))
                  (first + 1) blksz0 with
              | .error e => .error e
              | .ok blksz =>
                if blksz = blksz0 then
                  .ok (env.create_blockindexed (icount - first) blksz
                        (displacement_array.drop first) dispinbytes oldtype outs)
                else
                  create_indexed_general env count blocklength_array displacement_array
                    dispinbytes oldtype is_builtin old_extent old_type_count contig_count outs

/-! ## Definitions used to state and prove the properties -/

deriving instance DecidableEq for Except

/-- The index `first` is the index of the first block of nonzero length: every
block before it has length zero and the block at `first` has not. -/
def First_nonzero_at (blocklength_array : List MPI_Aint) (first : Nat) : Prop :=
  (∀ j, j < first → blocklength_array[j]? = some 0) ∧
    ∃ b, blocklength_array[first]? = some b ∧ b ≠ 0

/-- The runs, as pairs (byte displacement, block length), into which the blocks
with lengths `bs` and byte displacements `ds` merge when they follow a current
run of `l` elements at byte displacement `o`, for a base extent `E`. -/
def merged_runs (E : MPI_Aint) :
    List MPI_Aint → List MPI_Aint → MPI_Aint → MPI_Aint → List (MPI_Aint × MPI_Aint)
  | b :: bs, d :: ds, o, l =>
    if b = 0 then merged_runs E bs ds o l
    else if o + l * E = d then merged_runs E bs ds o (l + b)
    else (o, l) :: merged_runs E bs ds d b
  | _, _, o, l => [(o, l)]

/-- The state `s1` comes from the state `s` by writing the runs `rs` into the
slots `s.cur_idx`, `s.cur_idx + 1`, ... and leaving every other slot as it is. -/
def Runs_written (s s1 : Copy_state) (rs : List (MPI_Aint × MPI_Aint)) : Prop :=
  s1.cur_idx + 1 = s.cur_idx + rs.length ∧
  s1.out_blklen_array.length = s.out_blklen_array.length ∧
  s1.out_disp_array.length = s.out_disp_array.length ∧
  (∀ j, j < s.cur_idx ∨ s1.cur_idx < j →
    s1.out_blklen_array[j]? = s.out_blklen_array[j]? ∧
    s1.out_disp_array[j]? = s.out_disp_array[j]?) ∧
  (∀ k o l, rs[k]? = some (o, l) →
    s1.out_disp_array[s.cur_idx + k]? = some o ∧
    s1.out_blklen_array[s.cur_idx + k]? = some l)

/-- The displacement array in bytes: the array itself when the displacements
are in bytes, and every displacement times the extent `E` otherwise. -/
def byte_displacements (dispinbytes : Bool) (E : MPI_Aint) (displacement_array : List MPI_Aint) :
    List MPI_Aint :=
  if dispinbytes then displacement_array else displacement_array.map (· * E)

/-- The runs, as pairs (byte displacement, block length), of an input whose
first block of nonzero length is at index `first`, for byte displacements
`bdisp` and a base extent `E`. -/
def input_runs (E : MPI_Aint) (blocklength_array bdisp : List MPI_Aint) (first : Nat) :
    List (MPI_Aint × MPI_Aint) :=
  match blocklength_array[first]?, bdisp[first]? with
  | some b0, some d0 =>
    merged_runs E (blocklength_array.drop (first + 1)) (bdisp.drop (first + 1)) d0 b0
  | _, _ => []

/-- A node as an allocator leaves it: arrays of `capacity` slots, no other
field set yet. -/
def blank_node (capacity : Nat) (nested : Option Nat) : MPIR_Dataloop where
  kind := ⟨.DLOOP_KIND_OTHER, false⟩
  el_size := 0
  el_extent := 0
  el_type := 0
  count := 0
  total_blocks := 0
  blocksize_array := List.replicate capacity 0
  offset_array := List.replicate capacity 0
  dataloop := nested

/-- Collaborators for the examples.  Every type has extent `extent` and size
`size`; the handles from 100 on are compound types.  The allocators never fail
and give a node with as many slots as are asked for.  The two constructors
record their arguments in a node: the contiguous one its element count and type,
the block-indexed one its block count, block length, type and the byte
displacements of its blocks. -/
def example_env (extent size : MPI_Aint) : DLOOP_Collaborators where
  MPI_INT := 1
  hasloop := fun t => decide (100 ≤ t)
  get_extent := fun _ => extent
  get_size := fun _ => size
  get_loopptr := fun t => t + 1000
  get_loopsize := fun _ => 64
  get_basic_type := fun _ => 2
  alloc := fun _ n => some (blank_node n.toNat none, 32 + 16 * n)
  alloc_and_copy := fun _ n p sz => some (blank_node n.toNat (some p), 32 + 16 * n + sz)
  create_contiguous := fun n t _ =>
    (0, ⟨some { blank_node 0 none with
                kind := ⟨.DLOOP_KIND_CONTIG, true⟩, count := n, el_type := t }, 32⟩)
  create_blockindexed := fun n blklen disp dispinbytes t _ =>
    (0, ⟨some { blank_node 0 none with
                kind := ⟨.DLOOP_KIND_BLOCKINDEXED, true⟩
                count := n
                total_blocks := n * blklen
                blocksize_array := [blklen]
                offset_array := (byte_displacements dispinbytes extent disp).take n.toNat
                el_type := t }, 32 + 8 * n⟩)

/-- The outputs before a call in the examples: a null pointer and size 0. -/
def no_outputs : DLOOP_Outputs := ⟨none, 0⟩

/-- The runs, as pairs (byte displacement, block length), of a whole input with
byte displacements `bdisp`: the leading blocks of length zero are skipped and
the others merge as in `merged_runs`.  An input without a block of nonzero
length has no run. -/
def all_runs (E : MPI_Aint) : List MPI_Aint → List MPI_Aint → List (MPI_Aint × MPI_Aint)
  | b :: bs, d :: ds => if b = 0 then all_runs E bs ds else merged_runs E bs ds d b
  | _, _ => []

/-- The byte displacements of the blocks of nonzero length, in input order. -/
def nonzero_block_displacements (blocklength_array bdisp : List MPI_Aint) : List MPI_Aint :=
  ((blocklength_array.zip bdisp).filter (fun p => decide (p.1 ≠ 0))).map Prod.snd

/-- The uniform-block-length test in the words of the specification: every
block at an index after `first` has the length `blksz0` of the block at
`first`. -/
def all_later_blocks_have_length (blocklength_array : List MPI_Aint) (first : Nat)
    (blksz0 : MPI_Aint) : Bool :=
  (blocklength_array.drop (first + 1)).all (fun b => decide (b = blksz0))

/-- Collaborators for the examples whose allocators always fail; everything
else is as in `example_env`. -/
def failing_alloc_env (extent size : MPI_Aint) : DLOOP_Collaborators :=
  { example_env extent size with
    alloc := fun _ _ => none
    alloc_and_copy := fun _ _ _ _ => none }

/-! ## Lemmas about the loops -/

theorem in_read_of_getElem? {a : List Int} {i : Nat} {v : Int}
    (h : a[i]? = some v) : in_read a i = .ok v := by
  simp [in_read, h]

theorem out_read_of_getElem? {a : List Int} {i : Nat} {v : Int}
    (h : a[i]? = some v) : out_read a i = .ok v := by
  simp [out_read, h]

theorem out_write_of_lt {a : List Int} {i : Nat} (v : Int)
    (h : i < a.length) : out_write a i v = .ok (a.set i v) := by
  simp [out_write, h]

theorem in_read_map (f : Int → Int) (a : List Int) (i : Nat) :
    in_read (a.map f) i = (in_read a i).map f := by
  unfold in_read
  rw [List.getElem?_map]
  cases a[i]? <;> rfl

theorem drop_eq_cons_of_getElem? {a : List Int} {i : Nat} {v : Int}
    (h : a[i]? = some v) : a.drop i = v :: a.drop (i + 1) := by
  obtain ⟨hlt, hv⟩ := List.getElem?_eq_some.mp h
  rw [List.drop_eq_getElem_cons hlt, hv]

theorem getElem?_of_lt_length (a : List Int) {i : Nat} (h : i < a.length) :
    ∃ v, a[i]? = some v :=
  ⟨a[i], List.getElem?_eq_getElem h⟩

/-- The skip loop stops at the first block of nonzero length. -/
theorem skip_zero_blocks_first {bl : List Int} {first : Nat}
    (hf : First_nonzero_at bl first) :
    ∀ n i, i ≤ first → i + n = bl.length → skip_zero_blocks bl n i = .ok first := by
  obtain ⟨hz, b, hb, hb0⟩ := hf
  have hlt : first < bl.length := (List.getElem?_eq_some.mp hb).1
  intro n
  induction n with
  | zero => intro i h1 h2; omega
  | succ n ih =>
    intro i h1 h2
    unfold skip_zero_blocks
    rcases Nat.lt_or_ge i first with h | h
    · rw [in_read_of_getElem? (hz i h)]
      simp only [ne_eq, not_true_eq_false, ↓reduceIte]
      exact ih (i + 1) h (by omega)
    · have : i = first := by omega
      subst this
      rw [in_read_of_getElem? hb]
      simp [hb0]

/-- On an array of zero lengths the skip loop runs to the end. -/
theorem skip_zero_blocks_all_zero {bl : List Int} (hz : ∀ b ∈ bl, b = 0) :
    ∀ n i, i + n = bl.length → skip_zero_blocks bl n i = .ok bl.length := by
  intro n
  induction n with
  | zero => intro i h; simp [skip_zero_blocks]; omega
  | succ n ih =>
    intro i h
    unfold skip_zero_blocks
    obtain ⟨v, hv⟩ := getElem?_of_lt_length bl (show i < bl.length by omega)
    have hv0 : v = 0 := hz v (List.getElem?_mem hv)
    subst hv0
    rw [in_read_of_getElem? hv]
    simp only [ne_eq, not_true_eq_false, ↓reduceIte]
    exact ih (i + 1) (by omega)

/-- The summation loop adds the remaining block lengths to its accumulator. -/
theorem sum_blocklengths_loop_eq (bl : List Int) :
    ∀ n i acc, i + n = bl.length →
      sum_blocklengths_loop bl n i acc = .ok (acc + (bl.drop i).sum) := by
  intro n
  induction n with
  | zero =>
    intro i acc h
    have : bl.drop i = [] := List.drop_eq_nil_of_le (by omega)
    simp [sum_blocklengths_loop, this]
  | succ n ih =>
    intro i acc h
    unfold sum_blocklengths_loop
    obtain ⟨v, hv⟩ := getElem?_of_lt_length bl (show i < bl.length by omega)
    rw [in_read_of_getElem? hv]
    simp only
    rw [ih (i + 1) (acc + v) (by omega), drop_eq_cons_of_getElem? hv, List.sum_cons, add_assoc]

/-- Leading blocks of length zero do not contribute to the sum. -/
theorem sum_drop_of_leading_zeros (bl : List Int) :
    ∀ first, (∀ j, j < first → bl[j]? = some 0) → (bl.drop first).sum = bl.sum := by
  induction bl with
  | nil => intro first _; simp
  | cons b bs ih =>
    intro first hz
    cases first with
    | zero => simp
    | succ k =>
      have h0 : b = 0 := by
        have := hz 0 (by omega)
        simpa using this
      have := ih k (fun j hj => by
        have := hz (j + 1) (by omega)
        simpa using this)
      simp [h0, this]

theorem merged_runs_length_pos (E : Int) :
    ∀ (bs ds : List Int) (o l : Int), 0 < (merged_runs E bs ds o l).length := by
  intro bs
  induction bs with
  | nil => intro ds o l; simp [merged_runs]
  | cons b bs ih =>
    intro ds o l
    cases ds with
    | nil => simp [merged_runs]
    | cons d ds =>
      unfold merged_runs
      split_ifs
      · exact ih ds o l
      · exact ih ds o (l + b)
      · simp

theorem merged_runs_of_drop_nil (E : Int) {bl : List Int} {i : Nat}
    (h : bl.length ≤ i) (ds : List Int) (o l : Int) :
    merged_runs E (bl.drop i) ds o l = [(o, l)] := by
  rw [List.drop_eq_nil_of_le h]
  simp [merged_runs]

/-- The byte-mode counting loop counts the runs that the remaining blocks open. -/
theorem count_contig_loop_bytes_eq (bl disp : List Int) (E : Int) :
    ∀ n i o l cc, i + n = bl.length → i + n = disp.length →
      count_contig_loop_bytes bl disp E n i o l cc
        = .ok (cc + (merged_runs E (bl.drop i) (disp.drop i) o l).length - 1) := by
  intro n
  induction n with
  | zero =>
    intro i o l cc h1 h2
    rw [merged_runs_of_drop_nil E (by omega)]
    simp [count_contig_loop_bytes]
  | succ n ih =>
    intro i o l cc h1 h2
    obtain ⟨b, hb⟩ := getElem?_of_lt_length bl (show i < bl.length by omega)
    obtain ⟨d, hd⟩ := getElem?_of_lt_length disp (show i < disp.length by omega)
    unfold count_contig_loop_bytes
    rw [in_read_of_getElem? hb, drop_eq_cons_of_getElem? hb, drop_eq_cons_of_getElem? hd]
    simp only [in_read_of_getElem? hd]
    unfold merged_runs
    by_cases hb0 : b = 0
    · simp only [hb0, ↓reduceIte]
      exact ih (i + 1) o l cc (by omega) (by omega)
    · simp only [hb0, ↓reduceIte]
      by_cases hadj : o + l * E = d
      · simp only [hadj, ↓reduceIte]
        exact ih (i + 1) o (l + b) cc (by omega) (by omega)
      · simp only [hadj, ↓reduceIte]
        rw [ih (i + 1) d b (cc + 1) (by omega) (by omega)]
        simp only [List.length_cons, Nat.cast_add, Nat.cast_one]
        congr 1
        ring

/-- The element-mode counting loop is the byte-mode loop for extent 1. -/
theorem count_contig_loop_elements_eq_bytes_one (bl disp : List Int) :
    ∀ n i o l cc, count_contig_loop_elements bl disp n i o l cc
      = count_contig_loop_bytes bl disp 1 n i o l cc := by
  intro n
  induction n with
  | zero => intro i o l cc; rfl
  | succ n ih =>
    intro i o l cc
    unfold count_contig_loop_elements count_contig_loop_bytes
    simp only [mul_one, ih]

/-- For a nonzero extent the byte-mode counting loop on the displacements
multiplied by the extent is the element-mode loop on the displacements. -/
theorem count_contig_loop_bytes_scaled (bl disp : List Int) {E : Int} (hE : E ≠ 0) :
    ∀ n i o l cc, count_contig_loop_bytes bl (disp.map (· * E)) E n i (o * E) l cc
      = count_contig_loop_elements bl disp n i o l cc := by
  intro n
  induction n with
  | zero => intro i o l cc; rfl
  | succ n ih =>
    intro i o l cc
    unfold count_contig_loop_elements count_contig_loop_bytes
    rw [in_read_map]
    cases hb : in_read bl i with
    | error e => rfl
    | ok b =>
      simp only
      by_cases hb0 : b = 0
      · simp only [hb0, ↓reduceIte]
        exact ih (i + 1) o l cc
      · simp only [hb0, ↓reduceIte]
        cases hd : in_read disp i with
        | error e => rfl
        | ok d =>
          simp only [Except.map]
          have hiff : (o * E + l * E = d * E) ↔ (o + l = d) := by
            rw [← add_mul]
            exact mul_left_inj' hE
          by_cases hadj : o + l = d
          · rw [if_pos (hiff.mpr hadj), if_pos hadj]
            exact ih (i + 1) o (l + b) cc
          · rw [if_neg (fun h => hadj (hiff.mp h)), if_neg hadj]
            exact ih (i + 1) d b (cc + 1)

/-- The element-mode copy loop is the byte-mode copy loop on the displacements
multiplied by the extent. -/
theorem array_copy_loop_elements_eq_bytes (bl disp : List Int) (cc E : Int) :
    ∀ n i s, array_copy_loop_elements bl disp cc E n i s
      = array_copy_loop_bytes bl (disp.map (· * E)) cc E n i s := by
  intro n
  induction n with
  | zero => intro i s; rfl
  | succ n ih =>
    intro i s
    unfold array_copy_loop_elements array_copy_loop_bytes
    rw [in_read_map]
    cases hb : in_read bl i with
    | error e => rfl
    | ok b =>
      simp only
      by_cases hb0 : b = 0
      · simp only [hb0, ↓reduceIte]
        exact ih (i + 1) s
      · simp only [hb0, ↓reduceIte]
        cases he : copy_block_end s E with
        | error e => rfl
        | ok e_cur =>
          simp only
          cases hd : in_read disp i with
          | error e => rfl
          | ok d =>
            simp only [Except.map]
            by_cases hadj : e_cur = d * E
            · simp only [hadj, ↓reduceIte]
              cases copy_add_to_block s b with
              | error e => rfl
              | ok s1 => exact ih (i + 1) s1
            · simp only [hadj, ↓reduceIte]
              cases copy_new_slot cc s (d * E) b with
              | error e => rfl
              | ok s1 => exact ih (i + 1) s1

theorem runs_written_refl {s : Copy_state} {o l : Int}
    (ho : s.out_disp_array[s.cur_idx]? = some o)
    (hl : s.out_blklen_array[s.cur_idx]? = some l) : Runs_written s s [(o, l)] := by
  refine ⟨by simp, rfl, rfl, fun j _ => ⟨rfl, rfl⟩, ?_⟩
  intro k o1 l1 hk
  cases k with
  | zero =>
    simp only [List.getElem?_cons_zero, Option.some.injEq, Prod.mk.injEq] at hk
    obtain ⟨rfl, rfl⟩ := hk
    exact ⟨ho, hl⟩
  | succ k => simp at hk

/-- The byte-mode copy loop writes the runs that the remaining blocks form with
the current slot, provided the slots exist and stay below `contig_count`. -/
theorem array_copy_loop_bytes_spec (bl disp : List Int) (cc E : Int) :
    ∀ n i (s : Copy_state) (o l : Int), i + n = bl.length → i + n = disp.length →
      s.out_disp_array[s.cur_idx]? = some o → s.out_blklen_array[s.cur_idx]? = some l →
      ((s.cur_idx + (merged_runs E (bl.drop i) (disp.drop i) o l).length : Nat) : Int) ≤ cc →
      s.cur_idx + (merged_runs E (bl.drop i) (disp.drop i) o l).length ≤ s.out_blklen_array.length →
      s.cur_idx + (merged_runs E (bl.drop i) (disp.drop i) o l).length ≤ s.out_disp_array.length →
      ∃ s1, array_copy_loop_bytes bl disp cc E n i s = .ok s1 ∧
        Runs_written s s1 (merged_runs E (bl.drop i) (disp.drop i) o l) := by
  intro n
  induction n with
  | zero =>
    intro i s o l h1 h2 ho hl _ _ _
    rw [merged_runs_of_drop_nil E (by omega)]
    exact ⟨s, rfl, runs_written_refl ho hl⟩
  | succ n ih =>
    intro i s o l h1 h2 ho hl hcc hcb hcd
    obtain ⟨b, hb⟩ := getElem?_of_lt_length bl (show i < bl.length by omega)
    obtain ⟨d, hd⟩ := getElem?_of_lt_length disp (show i < disp.length by omega)
    have hend : copy_block_end s E = .ok (o + l * E) := by
      simp [copy_block_end, out_read_of_getElem? ho, out_read_of_getElem? hl]
    have hcur_b : s.cur_idx < s.out_blklen_array.length := (List.getElem?_eq_some.mp hl).1
    have hcur_d : s.cur_idx < s.out_disp_array.length := (List.getElem?_eq_some.mp ho).1
    unfold array_copy_loop_bytes
    rw [in_read_of_getElem? hb]
    rw [drop_eq_cons_of_getElem? hb, drop_eq_cons_of_getElem? hd] at hcc hcb hcd ⊢
    simp only [in_read_of_getElem? hd, hend]
    unfold merged_runs at hcc hcb hcd ⊢
    by_cases hb0 : b = 0
    · simp only [hb0, ↓reduceIte] at hcc hcb hcd ⊢
      exact ih (i + 1) s o l (by omega) (by omega) ho hl hcc hcb hcd
    · simp only [hb0, ↓reduceIte] at hcc hcb hcd ⊢
      by_cases hadj : o + l * E = d
      · simp only [hadj, ↓reduceIte] at hcc hcb hcd ⊢
        have hadd : copy_add_to_block s b
            = .ok ⟨s.out_blklen_array.set s.cur_idx (l + b), s.out_disp_array, s.cur_idx⟩ := by
          simp [copy_add_to_block, out_read_of_getElem? hl, out_write_of_lt _ hcur_b]
        simp only [hadd]
        obtain ⟨s2, hs2, hw⟩ := ih (i + 1)
          ⟨s.out_blklen_array.set s.cur_idx (l + b), s.out_disp_array, s.cur_idx⟩ o (l + b)
          (by omega) (by omega) ho (List.getElem?_set_self hcur_b)
          hcc (by simpa using hcb) hcd
        refine ⟨s2, hs2, ?_⟩
        obtain ⟨w1, w2, w3, w4, w5⟩ := hw
        simp only [List.length_set] at w2
        refine ⟨w1, w2, w3, ?_, w5⟩
        intro j hj
        have hpos := merged_runs_length_pos E (bl.drop (i + 1)) (disp.drop (i + 1)) o (l + b)
        simp only at w1
        have hne : s.cur_idx ≠ j := by omega
        have := w4 j hj
        simp only [List.getElem?_set_ne hne] at this
        exact this
      · simp only [hadj, ↓reduceIte] at hcc hcb hcd ⊢
        have hpos := merged_runs_length_pos E (bl.drop (i + 1)) (disp.drop (i + 1)) d b
        simp only [List.length_cons] at hcc hcb hcd
        have hnew : copy_new_slot cc s d b
            = .ok ⟨s.out_blklen_array.set (s.cur_idx + 1) b,
                   s.out_disp_array.set (s.cur_idx + 1) d, s.cur_idx + 1⟩ := by
          have h1 : ((s.cur_idx + 1 : Nat) : Int) < cc := by
            omega
          have h2 : s.cur_idx + 1 < s.out_disp_array.length := by omega
          have h3 : s.cur_idx + 1 < s.out_blklen_array.length := by omega
          simp only [copy_new_slot, h1, ↓reduceIte, out_write_of_lt _ h2, out_write_of_lt _ h3]
        simp only [hnew]
        obtain ⟨s2, hs2, hw⟩ := ih (i + 1)
          ⟨s.out_blklen_array.set (s.cur_idx + 1) b,
            s.out_disp_array.set (s.cur_idx + 1) d, s.cur_idx + 1⟩ d b
          (by omega) (by omega)
          (List.getElem?_set_self (by omega)) (List.getElem?_set_self (by omega))
          (by simp only; rw [show s.cur_idx + 1 + (merged_runs E (bl.drop (i + 1)) (disp.drop (i + 1)) d b).length = s.cur_idx + ((merged_runs E (bl.drop (i + 1)) (disp.drop (i + 1)) d b).length + 1) by omega]; exact hcc)
          (by simp only [List.length_set]; omega) (by simp only [List.length_set]; omega)
        refine ⟨s2, hs2, ?_⟩
        obtain ⟨w1, w2, w3, w4, w5⟩ := hw
        simp only [List.length_set] at w1 w2 w3
        refine ⟨by simp only [List.length_cons]; omega, w2, w3, ?_, ?_⟩
        · intro j hj
          have hne : s.cur_idx + 1 ≠ j := by omega
          have := w4 j (by simp only; omega)
          simp only [List.getElem?_set_ne hne] at this
          exact this
        · intro k o1 l1 hk
          cases k with
          | zero =>
            simp only [List.getElem?_cons_zero, Option.some.injEq, Prod.mk.injEq] at hk
            obtain ⟨rfl, rfl⟩ := hk
            have := w4 s.cur_idx (Or.inl (by simp))
            simp only [List.getElem?_set_ne (show s.cur_idx + 1 ≠ s.cur_idx by omega)] at this
            simp only [Nat.add_zero]
            exact ⟨this.2.trans ho, this.1.trans hl⟩
          | succ k =>
            simp only [List.getElem?_cons_succ] at hk
            have := w5 k o1 l1 hk
            simp only at this
            rw [show s.cur_idx + (k + 1) = s.cur_idx + 1 + k by omega]
            exact this

theorem exists_first_nonzero (bl : List Int) (h : ∃ b ∈ bl, b ≠ 0) :
    ∃ first, First_nonzero_at bl first := by
  induction bl with
  | nil => simp at h
  | cons a as ih =>
    by_cases ha : a = 0
    · subst ha
      have h1 : ∃ b ∈ as, b ≠ 0 := by
        obtain ⟨b, hb, hb0⟩ := h
        rcases List.mem_cons.mp hb with rfl | hb
        · exact absurd rfl hb0
        · exact ⟨b, hb, hb0⟩
      obtain ⟨first, hz, b, hb, hb0⟩ := ih h1
      refine ⟨first + 1, ?_, b, by simpa using hb, hb0⟩
      intro j hj
      cases j with
      | zero => simp
      | succ j => simpa using hz j (by omega)
    · exact ⟨0, fun j hj => by omega, a, by simp, ha⟩

theorem first_nonzero_lt_length {bl : List Int} {first : Nat}
    (hf : First_nonzero_at bl first) : first < bl.length := by
  obtain ⟨_, b, hb, _⟩ := hf
  exact (List.getElem?_eq_some.mp hb).1

theorem first_nonzero_unique {bl : List Int} {f g : Nat}
    (hf : First_nonzero_at bl f) (hg : First_nonzero_at bl g) : f = g := by
  obtain ⟨hzf, bf, hbf, hbf0⟩ := hf
  obtain ⟨hzg, bg, hbg, hbg0⟩ := hg
  rcases Nat.lt_trichotomy f g with h | h | h
  · have := hzg f h
    rw [hbf] at this
    exact absurd (Option.some.inj this) hbf0
  · exact h
  · have := hzf g h
    rw [hbg] at this
    exact absurd (Option.some.inj this) hbg0

theorem input_runs_length_pos (E : Int) {bl bdisp : List Int} {first : Nat}
    (h1 : first < bl.length) (h2 : first < bdisp.length) :
    0 < (input_runs E bl bdisp first).length := by
  unfold input_runs
  rw [List.getElem?_eq_getElem h1, List.getElem?_eq_getElem h2]
  exact merged_runs_length_pos E _ _ _ _

/-- The counter, in byte mode, returns the number of runs of the input. -/
theorem count_contig_bytes_eq {count : Int} {bl disp : List Int} {first : Nat}
    (E : Int) (hbl : bl.length = count.toNat) (hdisp : disp.length = count.toNat)
    (hf : First_nonzero_at bl first) :
    MPIR_Type_indexed_count_contig count bl disp true E
      = .ok ((input_runs E bl disp first).length : Int) := by
  have hlt := first_nonzero_lt_length hf
  obtain ⟨b0, hb0⟩ := getElem?_of_lt_length bl hlt
  obtain ⟨d0, hd0⟩ := getElem?_of_lt_length disp (show first < disp.length by omega)
  have hc : count ≠ 0 := by omega
  have hfc : ¬ ((first : Int) = count) := by omega
  unfold MPIR_Type_indexed_count_contig
  rw [if_pos hc, skip_zero_blocks_first hf count.toNat 0 (by omega) (by omega)]
  simp only [hfc, ↓reduceIte, in_read_of_getElem? hb0, in_read_of_getElem? hd0,
    Bool.not_true, Bool.false_eq_true]
  rw [count_contig_loop_bytes_eq bl disp E _ _ _ _ _ (by omega) (by omega)]
  simp [input_runs, hb0, hd0]

/-- The counter, in element mode, returns the number of runs of the input for
extent 1, whatever the extent is. -/
theorem count_contig_elements_eq {count : Int} {bl disp : List Int} {first : Nat}
    (E : Int) (hbl : bl.length = count.toNat) (hdisp : disp.length = count.toNat)
    (hf : First_nonzero_at bl first) :
    MPIR_Type_indexed_count_contig count bl disp false E
      = .ok ((input_runs 1 bl disp first).length : Int) := by
  have hlt := first_nonzero_lt_length hf
  obtain ⟨b0, hb0⟩ := getElem?_of_lt_length bl hlt
  obtain ⟨d0, hd0⟩ := getElem?_of_lt_length disp (show first < disp.length by omega)
  have hc : count ≠ 0 := by omega
  have hfc : ¬ ((first : Int) = count) := by omega
  unfold MPIR_Type_indexed_count_contig
  rw [if_pos hc, skip_zero_blocks_first hf count.toNat 0 (by omega) (by omega)]
  simp only [hfc, ↓reduceIte, in_read_of_getElem? hb0, in_read_of_getElem? hd0,
    Bool.not_false]
  rw [count_contig_loop_elements_eq_bytes_one,
    count_contig_loop_bytes_eq bl disp 1 _ _ _ _ _ (by omega) (by omega)]
  simp [input_runs, hb0, hd0]

theorem byte_displacements_length (dispinbytes : Bool) (E : Int) (disp : List Int) :
    (byte_displacements dispinbytes E disp).length = disp.length := by
  unfold byte_displacements
  split <;> simp

/-- The copy loops write the runs of the input into the slots from 0 on, when
the output arrays have room for them and `contig_count` is at least their
number. -/
theorem array_copy_loops_spec {count : Int} {bl disp : List Int} {first : Nat}
    (dispinbytes : Bool) (E cc : Int) (ob od : List Int)
    (hbl : bl.length = count.toNat) (hdisp : disp.length = count.toNat)
    (hf : First_nonzero_at bl first)
    (hcc : ((input_runs E bl (byte_displacements dispinbytes E disp) first).length : Int) ≤ cc)
    (hob : (input_runs E bl (byte_displacements dispinbytes E disp) first).length ≤ ob.length)
    (hod : (input_runs E bl (byte_displacements dispinbytes E disp) first).length ≤ od.length) :
    ∃ s, DLOOP_Type_indexed_array_copy_loops count cc bl disp ob od dispinbytes E = .ok s ∧
      s.cur_idx + 1 = (input_runs E bl (byte_displacements dispinbytes E disp) first).length ∧
      s.out_blklen_array.length = ob.length ∧ s.out_disp_array.length = od.length ∧
      (∀ j, s.cur_idx < j → s.out_blklen_array[j]? = ob[j]? ∧ s.out_disp_array[j]? = od[j]?) ∧
      (∀ (k : Nat) (o l : Int), (input_runs E bl (byte_displacements dispinbytes E disp) first)[k]? = some (o, l) →
        s.out_disp_array[k]? = some o ∧ s.out_blklen_array[k]? = some l) := by
  have hlt := first_nonzero_lt_length hf
  obtain ⟨b0, hb0⟩ := getElem?_of_lt_length bl hlt
  obtain ⟨d0, hd0⟩ := getElem?_of_lt_length disp (show first < disp.length by omega)
  have hpos := input_runs_length_pos E hlt
    (show first < (byte_displacements dispinbytes E disp).length by
      rw [byte_displacements_length]; omega)
  have hob0 : 0 < ob.length := by omega
  have hod0 : 0 < od.length := by omega
  unfold DLOOP_Type_indexed_array_copy_loops
  rw [skip_zero_blocks_first hf count.toNat 0 (by omega) (by omega)]
  simp only [in_read_of_getElem? hb0, in_read_of_getElem? hd0, out_write_of_lt _ hob0,
    out_write_of_lt _ hod0]
  cases dispinbytes with
  | true =>
    simp only [Bool.not_true, Bool.false_eq_true, ↓reduceIte]
    have hr : input_runs E bl (byte_displacements true E disp) first
        = merged_runs E (bl.drop (first + 1)) (disp.drop (first + 1)) d0 b0 := by
      simp [input_runs, byte_displacements, hb0, hd0]
    rw [hr] at hcc hob hod ⊢
    obtain ⟨s1, hs1, w1, w2, w3, w4, w5⟩ := array_copy_loop_bytes_spec bl disp cc E
      (count.toNat - (first + 1)) (first + 1) ⟨ob.set 0 b0, od.set 0 d0, 0⟩ d0 b0
      (by omega) (by omega) (List.getElem?_set_self hod0) (List.getElem?_set_self hob0)
      (by simpa using hcc) (by simpa using hob) (by simpa using hod)
    refine ⟨s1, hs1, by simpa using w1, by simpa using w2, by simpa using w3, ?_, ?_⟩
    · intro j hj
      have := w4 j (Or.inr hj)
      simp only at w1
      have hne : 0 ≠ j := by omega
      simpa only [List.getElem?_set_ne hne] using this
    · intro k o l hk
      simpa using w5 k o l hk
  | false =>
    simp only [Bool.not_false, ↓reduceIte]
    have hr : input_runs E bl (byte_displacements false E disp) first
        = merged_runs E (bl.drop (first + 1)) ((disp.map (· * E)).drop (first + 1)) (d0 * E) b0 := by
      simp [input_runs, byte_displacements, hb0, hd0]
    rw [hr] at hcc hob hod ⊢
    rw [array_copy_loop_elements_eq_bytes]
    obtain ⟨s1, hs1, w1, w2, w3, w4, w5⟩ := array_copy_loop_bytes_spec bl (disp.map (· * E)) cc E
      (count.toNat - (first + 1)) (first + 1) ⟨ob.set 0 b0, od.set 0 (d0 * E), 0⟩ (d0 * E) b0
      (by omega) (by simp; omega) (List.getElem?_set_self hod0) (List.getElem?_set_self hob0)
      (by simpa using hcc) (by simpa using hob) (by simpa using hod)
    refine ⟨s1, hs1, by simpa using w1, by simpa using w2, by simpa using w3, ?_, ?_⟩
    · intro j hj
      have := w4 j (Or.inr hj)
      simp only at w1
      have hne : 0 ≠ j := by omega
      simpa only [List.getElem?_set_ne hne] using this
    · intro k o l hk
      simpa using w5 k o l hk

/-- For a nonzero extent, the runs of the displacements multiplied by the extent
are the runs for extent 1 with their displacements multiplied by the extent. -/
theorem merged_runs_scaled {E : Int} (hE : E ≠ 0) :
    ∀ (bs ds : List Int) (o l : Int),
      merged_runs E bs (ds.map (· * E)) (o * E) l
        = (merged_runs 1 bs ds o l).map (fun r => (r.1 * E, r.2)) := by
  intro bs
  induction bs with
  | nil => intro ds o l; simp [merged_runs]
  | cons b bs ih =>
    intro ds o l
    cases ds with
    | nil => simp [merged_runs]
    | cons d ds =>
      simp only [List.map_cons]
      unfold merged_runs
      have hiff : (o * E + l * E = d * E) ↔ (o + l * 1 = d) := by
        rw [← add_mul, mul_one]
        exact mul_left_inj' hE
      by_cases hb0 : b = 0
      · simp only [hb0, ↓reduceIte]
        exact ih ds o l
      · simp only [hb0, ↓reduceIte]
        by_cases hadj : o + l * 1 = d
        · rw [if_pos (hiff.mpr hadj), if_pos hadj]
          exact ih ds o (l + b)
        · rw [if_neg (fun h => hadj (hiff.mp h)), if_neg hadj]
          simp only [List.map_cons]
          rw [ih ds d b]

/-- For extent 0 all blocks merge into one run when the displacements are
multiplied by the extent. -/
theorem merged_runs_zero_extent :
    ∀ (bs ds : List Int) (o l : Int),
      (merged_runs 0 bs (ds.map (· * 0)) (o * 0) l).length = 1 := by
  intro bs
  induction bs with
  | nil => intro ds o l; simp [merged_runs]
  | cons b bs ih =>
    intro ds o l
    cases ds with
    | nil => simp [merged_runs]
    | cons d ds =>
      simp only [List.map_cons]
      unfold merged_runs
      by_cases hb0 : b = 0
      · simp only [hb0, ↓reduceIte]
        exact ih ds o l
      · simp only [hb0, ↓reduceIte, mul_zero, add_zero]
        have := ih ds o (l + b)
        simpa using this

/-- In element mode the copier never forms more runs than the counter counts. -/
theorem merged_runs_length_le (E : Int) (bs ds : List Int) (o l : Int) :
    (merged_runs E bs (ds.map (· * E)) (o * E) l).length ≤ (merged_runs 1 bs ds o l).length := by
  by_cases hE : E = 0
  · subst hE
    rw [merged_runs_zero_extent]
    exact merged_runs_length_pos 1 bs ds o l
  · rw [merged_runs_scaled hE, List.length_map]

theorem input_runs_elements_length_le (E : Int) (bl disp : List Int) (first : Nat) :
    (input_runs E bl (byte_displacements false E disp) first).length
      ≤ (input_runs 1 bl disp first).length := by
  unfold input_runs byte_displacements
  simp only [Bool.false_eq_true, ↓reduceIte, List.getElem?_map]
  cases bl[first]? with
  | none => simp
  | some b0 =>
    cases disp[first]? with
    | none => simp
    | some d0 =>
      simp only [Option.map_some']
      rw [← List.map_drop]
      exact merged_runs_length_le E _ _ d0 b0

theorem input_runs_elements_length_eq {E : Int} (hE : E ≠ 0) (bl disp : List Int) (first : Nat) :
    (input_runs E bl (byte_displacements false E disp) first).length
      = (input_runs 1 bl disp first).length := by
  unfold input_runs byte_displacements
  simp only [Bool.false_eq_true, ↓reduceIte, List.getElem?_map]
  cases bl[first]? with
  | none => simp
  | some b0 =>
    cases disp[first]? with
    | none => simp
    | some d0 =>
      simp only [Option.map_some']
      rw [← List.map_drop, merged_runs_scaled hE, List.length_map]

/-- The head of the runs is a run at the current displacement. -/
theorem merged_runs_head (E : Int) :
    ∀ (bs ds : List Int) (o l : Int), ∃ l1, (merged_runs E bs ds o l)[0]? = some (o, l1) := by
  intro bs
  induction bs with
  | nil => intro ds o l; exact ⟨l, by simp [merged_runs]⟩
  | cons b bs ih =>
    intro ds o l
    cases ds with
    | nil => exact ⟨l, by simp [merged_runs]⟩
    | cons d ds =>
      unfold merged_runs
      split_ifs
      · exact ih ds o l
      · exact ih ds o (l + b)
      · exact ⟨l, by simp⟩

/-- Consecutive runs are never adjacent in memory. -/
theorem merged_runs_not_adjacent (E : Int) :
    ∀ (bs ds : List Int) (o l : Int) (k : Nat) (o1 l1 o2 l2 : Int),
      (merged_runs E bs ds o l)[k]? = some (o1, l1) →
      (merged_runs E bs ds o l)[k + 1]? = some (o2, l2) →
      o1 + l1 * E ≠ o2 := by
  intro bs
  induction bs with
  | nil => intro ds o l k o1 l1 o2 l2 h1 h2; simp [merged_runs] at h2
  | cons b bs ih =>
    intro ds o l k o1 l1 o2 l2 h1 h2
    cases ds with
    | nil => simp [merged_runs] at h2
    | cons d ds =>
      unfold merged_runs at h1 h2
      by_cases hb0 : b = 0
      · simp only [hb0, ↓reduceIte] at h1 h2
        exact ih ds o l k o1 l1 o2 l2 h1 h2
      · simp only [hb0, ↓reduceIte] at h1 h2
        by_cases hadj : o + l * E = d
        · simp only [hadj, ↓reduceIte] at h1 h2
          exact ih ds o (l + b) k o1 l1 o2 l2 h1 h2
        · simp only [hadj, ↓reduceIte] at h1 h2
          cases k with
          | zero =>
            simp only [List.getElem?_cons_zero, Option.some.injEq, Prod.mk.injEq] at h1
            obtain ⟨rfl, rfl⟩ := h1
            simp only [zero_add, List.getElem?_cons_succ] at h2
            obtain ⟨l3, h3⟩ := merged_runs_head E bs ds d b
            rw [h3] at h2
            simp only [Option.some.injEq, Prod.mk.injEq] at h2
            rw [← h2.1]
            exact hadj
          | succ k =>
            simp only [List.getElem?_cons_succ] at h1 h2
            exact ih ds d b k o1 l1 o2 l2 h1 h2

/-- Every run has a positive length when the lengths are non-negative and the
current run has a positive length. -/
theorem merged_runs_pos (E : Int) :
    ∀ (bs ds : List Int) (o l : Int), 0 < l → (∀ b ∈ bs, 0 ≤ b) →
      ∀ r ∈ merged_runs E bs ds o l, 0 < r.2 := by
  intro bs
  induction bs with
  | nil => intro ds o l hl _ r hr; simp [merged_runs] at hr; subst hr; exact hl
  | cons b bs ih =>
    intro ds o l hl hnn r hr
    have hb : 0 ≤ b := hnn b (List.mem_cons_self _ _)
    have hbs : ∀ b ∈ bs, 0 ≤ b := fun x hx => hnn x (List.mem_cons_of_mem _ hx)
    cases ds with
    | nil => simp [merged_runs] at hr; subst hr; exact hl
    | cons d ds =>
      unfold merged_runs at hr
      by_cases hb0 : b = 0
      · simp only [hb0, ↓reduceIte] at hr
        exact ih ds o l hl hbs r hr
      · simp only [hb0, ↓reduceIte] at hr
        have hbpos : 0 < b := by omega
        by_cases hadj : o + l * E = d
        · simp only [hadj, ↓reduceIte] at hr
          exact ih ds o (l + b) (by omega) hbs r hr
        · simp only [hadj, ↓reduceIte] at hr
          rcases List.mem_cons.mp hr with rfl | hr
          · exact hl
          · exact ih ds d b hbpos hbs r hr

/-- Every run starts at the current displacement or at the displacement of a
later block of nonzero length. -/
theorem merged_runs_origin (E : Int) :
    ∀ (bs ds : List Int) (o l : Int), ∀ r ∈ merged_runs E bs ds o l,
      r.1 = o ∨ ∃ (j : Nat) (b : Int), bs[j]? = some b ∧ b ≠ 0 ∧ ds[j]? = some r.1 := by
  intro bs
  induction bs with
  | nil => intro ds o l r hr; simp [merged_runs] at hr; subst hr; exact Or.inl rfl
  | cons b bs ih =>
    intro ds o l r hr
    cases ds with
    | nil => simp [merged_runs] at hr; subst hr; exact Or.inl rfl
    | cons d ds =>
      have lift : (∃ (j : Nat) (b1 : Int), bs[j]? = some b1 ∧ b1 ≠ 0 ∧ ds[j]? = some r.1) →
          ∃ (j : Nat) (b1 : Int), (b :: bs)[j]? = some b1 ∧ b1 ≠ 0 ∧ (d :: ds)[j]? = some r.1 := by
        rintro ⟨j, b1, h1, h2, h3⟩
        exact ⟨j + 1, b1, by simpa using h1, h2, by simpa using h3⟩
      unfold merged_runs at hr
      by_cases hb0 : b = 0
      · simp only [hb0, ↓reduceIte] at hr
        rcases ih ds o l r hr with h | h
        · exact Or.inl h
        · exact Or.inr (lift h)
      · simp only [hb0, ↓reduceIte] at hr
        by_cases hadj : o + l * E = d
        · simp only [hadj, ↓reduceIte] at hr
          rcases ih ds o (l + b) r hr with h | h
          · exact Or.inl h
          · exact Or.inr (lift h)
        · simp only [hadj, ↓reduceIte] at hr
          rcases List.mem_cons.mp hr with rfl | hr
          · exact Or.inl rfl
          · rcases ih ds d b r hr with h | h
            · exact Or.inr ⟨0, b, by simp, hb0, by simp [h]⟩
            · exact Or.inr (lift h)

/-! ## The claims -/

/-- C1 (run-count/copy agreement), evaluated where it fails: for the two blocks
of lengths 1 and 2 at element displacements 0 and 5 over a base type of extent 0
the counter returns 2, the copier ends with `cur_idx = 0`, having written one
entry, and its final assertion `cur_idx == contig_count - 1` fails. -/
theorem C1_extent_zero_disagreement :
    MPIR_Type_indexed_count_contig 2 [1, 2] [0, 5] false 0 = .ok 2 ∧
    DLOOP_Type_indexed_array_copy_loops 2 2 [1, 2] [0, 5] [0, 0] [0, 0] false 0
      = .ok ⟨[3, 0], [0, 0], 0⟩ ∧
    DLOOP_Type_indexed_array_copy 2 2 [1, 2] [0, 5] [0, 0] [0, 0] false 0
      = .error .assert_cur_idx_eq_contig_count_minus_1 := by
  decide

/-- C2 (empty equivalence): when `count` is 0, or `count` is positive and every
block length is 0, the builder returns what the contiguous constructor returns
for 0 elements of `MPI_INT`, whatever the displacements, the unit flag and the
base type are. -/
theorem C2_empty_is_contiguous_zero (env : DLOOP_Collaborators) (count : Int)
    (bl disp : List Int) (dispinbytes : Bool) (oldtype : MPI_Datatype) (outs : DLOOP_Outputs)
    (h : count = 0 ∨ (0 < count ∧ bl.length = count.toNat ∧ ∀ b ∈ bl, b = 0)) :
    MPIR_Dataloop_create_indexed env count bl disp dispinbytes oldtype outs
      = .ok (env.create_contiguous 0 env.MPI_INT outs) := by
  rcases h with h | ⟨hpos, hbl, hz⟩
  · simp [MPIR_Dataloop_create_indexed, h]
  · have hc : ¬ (count = 0) := by omega
    have hskip := skip_zero_blocks_all_zero hz count.toNat 0 (by omega)
    have hcnt : MPIR_Type_indexed_count_contig count bl disp dispinbytes
        (env.get_extent oldtype) = .ok 0 := by
      unfold MPIR_Type_indexed_count_contig
      rw [if_pos hc, hskip]
      have : ((bl.length : Nat) : Int) = count := by omega
      simp only [this, ↓reduceIte]
    unfold MPIR_Dataloop_create_indexed
    simp only [hc, ↓reduceIte, hskip, hbl, Nat.sub_self, sum_blocklengths_loop, hcnt]

/-- A witness for C2: three blocks of length 0 with arbitrary displacements. -/
theorem C2_empty_is_contiguous_zero_witness :
    MPIR_Dataloop_create_indexed (example_env 4 4) 3 [0, 0, 0] [5, 99, 7] false 7 no_outputs
      = .ok ((example_env 4 4).create_contiguous 0 (example_env 4 4).MPI_INT no_outputs) :=
  C2_empty_is_contiguous_zero (example_env 4 4) 3 [0, 0, 0] [5, 99, 7] false 7 no_outputs
    (Or.inr ⟨by decide, by decide, by decide⟩)

/-- The uniform-block-length loop leaves `blksz` as it is when every remaining
block has that length. -/
theorem uniform_blksz_loop_all (bl : List Int) (blksz : Int) :
    ∀ n i, i + n = bl.length → (∀ (j : Nat) (b : Int), i ≤ j → bl[j]? = some b → b = blksz) →
      uniform_blksz_loop bl n i blksz = .ok blksz := by
  intro n
  induction n with
  | zero => intro i _ _; rfl
  | succ n ih =>
    intro i h hall
    obtain ⟨b, hb⟩ := getElem?_of_lt_length bl (show i < bl.length by omega)
    unfold uniform_blksz_loop
    rw [in_read_of_getElem? hb]
    have : b = blksz := hall i b (le_refl i) hb
    simp only [this, ne_eq, not_true_eq_false, ↓reduceIte]
    exact ih (i + 1) (by omega) (fun j b1 hj hb1 => hall j b1 (by omega) hb1)

/-- The uniform-block-length loop decrements `blksz` when some remaining block
has another length. -/
theorem uniform_blksz_loop_some (bl : List Int) (blksz : Int) :
    ∀ n i, i + n = bl.length → (∃ (j : Nat) (b : Int), i ≤ j ∧ bl[j]? = some b ∧ b ≠ blksz) →
      uniform_blksz_loop bl n i blksz = .ok (blksz - 1) := by
  intro n
  induction n with
  | zero =>
    intro i h hex
    obtain ⟨j, b, hj, hb, _⟩ := hex
    have := (List.getElem?_eq_some.mp hb).1
    omega
  | succ n ih =>
    intro i h hex
    obtain ⟨b, hb⟩ := getElem?_of_lt_length bl (show i < bl.length by omega)
    unfold uniform_blksz_loop
    rw [in_read_of_getElem? hb]
    by_cases hbb : b = blksz
    · simp only [hbb, ne_eq, not_true_eq_false, ↓reduceIte]
      apply ih (i + 1) (by omega)
      obtain ⟨j, b1, hj, hb1, hne⟩ := hex
      refine ⟨j, b1, ?_, hb1, hne⟩
      rcases Nat.eq_or_lt_of_le hj with rfl | hlt
      · rw [hb] at hb1
        exact absurd ((Option.some.inj hb1).symm.trans hbb) hne
      · omega
    · simp only [ne_eq, hbb, not_false_eq_true, ↓reduceIte]

/-- The values the builder computes before it selects a representation, for an
input with a block of nonzero length. -/
theorem create_indexed_prelude {count : Int} {bl : List Int} {first : Nat}
    (hbl : bl.length = count.toNat) (hf : First_nonzero_at bl first) :
    ¬ (count = 0) ∧ skip_zero_blocks bl count.toNat 0 = .ok first ∧
      sum_blocklengths_loop bl (count.toNat - first) first 0 = .ok bl.sum := by
  have hlt := first_nonzero_lt_length hf
  refine ⟨by omega, skip_zero_blocks_first hf count.toNat 0 (by omega) (by omega), ?_⟩
  rw [sum_blocklengths_loop_eq bl _ _ _ (by omega), sum_drop_of_leading_zeros bl first hf.1,
    zero_add]

/-- C3 (single contiguous collapse): when the run count is 1 and the first block
of nonzero length has displacement 0, the builder returns what the contiguous
constructor returns for the sum of all block lengths and the base type. -/
theorem C3_one_run_at_zero_is_contiguous (env : DLOOP_Collaborators) (count : Int)
    (bl disp : List Int) (dispinbytes : Bool) (oldtype : MPI_Datatype) (outs : DLOOP_Outputs)
    (first : Nat) (hbl : bl.length = count.toNat) (hf : First_nonzero_at bl first)
    (hrun : MPIR_Type_indexed_count_contig count bl disp dispinbytes (env.get_extent oldtype)
      = .ok 1)
    (hd : disp[first]? = some 0) :
    MPIR_Dataloop_create_indexed env count bl disp dispinbytes oldtype outs
      = .ok (env.create_contiguous bl.sum oldtype outs) := by
  obtain ⟨hc, hskip, hsum⟩ := create_indexed_prelude hbl hf
  unfold MPIR_Dataloop_create_indexed
  simp only [hc, ↓reduceIte, hskip, hsum, hrun, one_ne_zero, in_read_of_getElem? hd]

/-- Witnesses for C3: lengths 2, 3, 1 at element displacements 0, 2, 5 give a
contiguous descriptor of 6 elements; lengths 1, 0, 1, 2 at displacements 0, 99,
1, 2 over a type of extent 4 give 1 run and a contiguous descriptor of 4
elements, the block of length 0 in between notwithstanding. -/
theorem C3_one_run_at_zero_is_contiguous_witness :
    MPIR_Dataloop_create_indexed (example_env 1 1) 3 [2, 3, 1] [0, 2, 5] false 7 no_outputs
      = .ok ((example_env 1 1).create_contiguous 6 7 no_outputs) ∧
    MPIR_Type_indexed_count_contig 4 [1, 0, 1, 2] [0, 99, 1, 2] false 4 = .ok 1 ∧
    MPIR_Dataloop_create_indexed (example_env 4 4) 4 [1, 0, 1, 2] [0, 99, 1, 2] false 7 no_outputs
      = .ok ((example_env 4 4).create_contiguous 4 7 no_outputs) :=
  ⟨C3_one_run_at_zero_is_contiguous (example_env 1 1) 3 [2, 3, 1] [0, 2, 5] false 7 no_outputs 0
      (by decide) ⟨fun j hj => absurd hj (Nat.not_lt_zero j), 2, by decide, by decide⟩
      (by decide) (by decide),
   by decide,
   C3_one_run_at_zero_is_contiguous (example_env 4 4) 4 [1, 0, 1, 2] [0, 99, 1, 2] false 7
      no_outputs 0 (by decide) ⟨fun j hj => absurd hj (Nat.not_lt_zero j), 1, by decide, by decide⟩
      (by decide) (by decide)⟩

/-- C4 (single block-indexed): when the run count is 1 and the first block of
nonzero length has a nonzero displacement, the builder returns what the
block-indexed constructor returns for 1 block whose length is the sum of all
block lengths, the displacements from index `first` on, the same unit flag and
the base type. -/
theorem C4_one_run_elsewhere_is_blockindexed (env : DLOOP_Collaborators) (count : Int)
    (bl disp : List Int) (dispinbytes : Bool) (oldtype : MPI_Datatype) (outs : DLOOP_Outputs)
    (first : Nat) (d : Int) (hbl : bl.length = count.toNat) (hf : First_nonzero_at bl first)
    (hrun : MPIR_Type_indexed_count_contig count bl disp dispinbytes (env.get_extent oldtype)
      = .ok 1)
    (hd : disp[first]? = some d) (hd0 : d ≠ 0) :
    MPIR_Dataloop_create_indexed env count bl disp dispinbytes oldtype outs
      = .ok (env.create_blockindexed 1 bl.sum (disp.drop first) dispinbytes oldtype outs) := by
  obtain ⟨hc, hskip, hsum⟩ := create_indexed_prelude hbl hf
  unfold MPIR_Dataloop_create_indexed
  simp only [hc, ↓reduceIte, hskip, hsum, hrun, one_ne_zero, in_read_of_getElem? hd, hd0]

/-- A witness for C4: lengths 2, 3 at element displacements 4, 6 give 1 block of
length 5 at displacement 4. -/
theorem C4_one_run_elsewhere_is_blockindexed_witness :
    MPIR_Dataloop_create_indexed (example_env 8 8) 2 [2, 3] [4, 6] false 7 no_outputs
      = .ok ((example_env 8 8).create_blockindexed 1 5 [4, 6] false 7 no_outputs) :=
  C4_one_run_elsewhere_is_blockindexed (example_env 8 8) 2 [2, 3] [4, 6] false 7 no_outputs 0 4
    (by decide) ⟨fun j hj => absurd hj (Nat.not_lt_zero j), 2, by decide, by decide⟩
    (by decide) (by decide) (by decide)

/-- C5 as stated fails: for the lengths 2, 0, 2 at element displacements 0, 99,
10 the run count is 2 and every block of nonzero length has length 2, the
length of the first one, yet the builder does not return what the
block-indexed constructor returns for 3 blocks of length 2: the block of
length 0 fails the uniform-length test, and the builder returns an indexed
node. -/
theorem C5_zero_length_block_counterexample :
    MPIR_Type_indexed_count_contig 3 [2, 0, 2] [0, 99, 10] false 4 = .ok 2 ∧
    (∀ b ∈ [(2 : Int), 0, 2], b ≠ 0 → b = 2) ∧
    MPIR_Dataloop_create_indexed (example_env 4 4) 3 [2, 0, 2] [0, 99, 10] false 7 no_outputs
      ≠ .ok ((example_env 4 4).create_blockindexed (3 - 0) 2 ([0, 99, 10].drop 0) false 7
          no_outputs) ∧
    MPIR_Dataloop_create_indexed (example_env 4 4) 3 [2, 0, 2] [0, 99, 10] false 7 no_outputs
      = .ok (0, ⟨some { kind := ⟨.DLOOP_KIND_INDEXED, true⟩, el_size := 4, el_extent := 4,
                        el_type := 7, count := 2, total_blocks := 4,
                        blocksize_array := [2, 2, 0], offset_array := [0, 40, 0],
                        dataloop := none }, 80⟩) := by
  decide

/-- C6 (the node of the general indexed branch), evaluated where it fails: for
the lengths 1, 2 at element displacements 0, 5 over a primitive type of extent
0 the builder reaches the general indexed branch (the run count is 2 and the
lengths differ) and the allocation succeeds, but the builder does not return:
the final assertion of the copier fails.  Over a type of extent 4 the same
input gives success and the node the claim describes. -/
theorem C6_general_branch_extent_zero :
    MPIR_Type_indexed_count_contig 2 [1, 2] [0, 5] false 0 = .ok 2 ∧
    (example_env 0 4).alloc .DLOOP_KIND_INDEXED 2 = some (blank_node 2 none, 64) ∧
    MPIR_Dataloop_create_indexed (example_env 0 4) 2 [1, 2] [0, 5] false 7 no_outputs
      = .error .assert_cur_idx_eq_contig_count_minus_1 ∧
    MPIR_Dataloop_create_indexed (example_env 4 4) 2 [1, 2] [0, 5] false 7 no_outputs
      = .ok (0, ⟨some { kind := ⟨.DLOOP_KIND_INDEXED, true⟩, el_size := 4, el_extent := 4,
                        el_type := 7, count := 2, total_blocks := 3,
                        blocksize_array := [1, 2], offset_array := [0, 20],
                        dataloop := none }, 64⟩) := by
  decide

/-- The counter returns the number of runs of the input: for the extent in byte
mode, for extent 1 in element mode. -/
theorem count_contig_eq_runs {count : Int} {bl disp : List Int} {first : Nat}
    (dispinbytes : Bool) (E : Int) (hbl : bl.length = count.toNat)
    (hdisp : disp.length = count.toNat) (hf : First_nonzero_at bl first) :
    MPIR_Type_indexed_count_contig count bl disp dispinbytes E
      = .ok ((input_runs (if dispinbytes then E else 1) bl disp first).length : Int) := by
  cases dispinbytes with
  | true => simpa using count_contig_bytes_eq E hbl hdisp hf
  | false => simpa using count_contig_elements_eq E hbl hdisp hf

/-- The copier forms at most as many runs as the counter counts. -/
theorem copier_runs_length_le (dispinbytes : Bool) (E : Int) (bl disp : List Int) (first : Nat) :
    (input_runs E bl (byte_displacements dispinbytes E disp) first).length
      ≤ (input_runs (if dispinbytes then E else 1) bl disp first).length := by
  cases dispinbytes with
  | true => simp [byte_displacements]
  | false => simpa using input_runs_elements_length_le E bl disp first

/-- The copy loops succeed when `contig_count` is the result of the counter and
the output arrays have at least `contig_count` slots; they write the runs of the
input into the slots from 0 on. -/
theorem array_copy_loops_of_count {count : Int} {bl disp : List Int}
    (dispinbytes : Bool) (E cc : Int) (ob od : List Int)
    (hbl : bl.length = count.toNat) (hdisp : disp.length = count.toNat)
    (hnz : ∃ b ∈ bl, b ≠ 0)
    (hrun : MPIR_Type_indexed_count_contig count bl disp dispinbytes E = .ok cc)
    (hob : cc.toNat ≤ ob.length) (hod : cc.toNat ≤ od.length) :
    ∃ first s, First_nonzero_at bl first ∧
      DLOOP_Type_indexed_array_copy_loops count cc bl disp ob od dispinbytes E = .ok s ∧
      s.cur_idx + 1 = (input_runs E bl (byte_displacements dispinbytes E disp) first).length ∧
      ((s.cur_idx : Int) < cc) ∧
      s.out_blklen_array.length = ob.length ∧ s.out_disp_array.length = od.length ∧
      (∀ j, s.cur_idx < j → s.out_blklen_array[j]? = ob[j]? ∧ s.out_disp_array[j]? = od[j]?) ∧
      (∀ (k : Nat) (o l : Int),
        (input_runs E bl (byte_displacements dispinbytes E disp) first)[k]? = some (o, l) →
        s.out_disp_array[k]? = some o ∧ s.out_blklen_array[k]? = some l) := by
  obtain ⟨first, hf⟩ := exists_first_nonzero bl hnz
  have hcount := count_contig_eq_runs dispinbytes E hbl hdisp hf
  rw [hrun] at hcount
  have hcc : cc = ((input_runs (if dispinbytes then E else 1) bl disp first).length : Int) :=
    Except.ok.inj hcount
  have hle := copier_runs_length_le dispinbytes E bl disp first
  obtain ⟨s, hs, w1, w2, w3, w4, w5⟩ := array_copy_loops_spec dispinbytes E cc ob od hbl hdisp hf
    (by omega) (by omega) (by omega)
  exact ⟨first, s, hf, hs, w1, by omega, w2, w3, w4, w5⟩

/-- C10 (the copier stays in bounds): for an input with a block of nonzero
length, in either unit and for every extent, the copier run with
`contig_count` the result of the counter and output arrays of `contig_count`
slots completes its loops with `cur_idx` below `contig_count`, and the copier
ends neither with a read outside the input arrays, nor with an access outside
the output arrays, nor with a failure of the assertion
`cur_idx < contig_count` of its loops. -/
theorem C10_copier_stays_in_bounds (count : Int) (bl disp : List Int) (dispinbytes : Bool)
    (E cc : Int) (ob od : List Int)
    (hbl : bl.length = count.toNat) (hdisp : disp.length = count.toNat)
    (hnz : ∃ b ∈ bl, b ≠ 0)
    (hrun : MPIR_Type_indexed_count_contig count bl disp dispinbytes E = .ok cc)
    (hob : ob.length = cc.toNat) (hod : od.length = cc.toNat) :
    (∃ s, DLOOP_Type_indexed_array_copy_loops count cc bl disp ob od dispinbytes E = .ok s ∧
      (s.cur_idx : Int) < cc ∧
      s.out_blklen_array.length = cc.toNat ∧ s.out_disp_array.length = cc.toNat) ∧
    DLOOP_Type_indexed_array_copy count cc bl disp ob od dispinbytes E
      ≠ .error .input_index_out_of_bounds ∧
    DLOOP_Type_indexed_array_copy count cc bl disp ob od dispinbytes E
      ≠ .error .output_index_out_of_bounds ∧
    DLOOP_Type_indexed_array_copy count cc bl disp ob od dispinbytes E
      ≠ .error .assert_cur_idx_lt_contig_count := by
  obtain ⟨first, s, _, hs, _, hlt, w2, w3, _, _⟩ :=
    array_copy_loops_of_count dispinbytes E cc ob od hbl hdisp hnz hrun (by omega) (by omega)
  refine ⟨⟨s, hs, hlt, by omega, by omega⟩, ?_, ?_, ?_⟩ <;>
  · unfold DLOOP_Type_indexed_array_copy
    rw [hs]
    simp only
    split_ifs <;> simp

/-- A witness for C10: lengths 1, 0, 2, 2 at element displacements 0, 99, 7, 9
over a type of extent 4 have 2 runs, and the copier fills the 2 slots. -/
theorem C10_copier_stays_in_bounds_witness :
    MPIR_Type_indexed_count_contig 4 [1, 0, 2, 2] [0, 99, 7, 9] false 4 = .ok 2 ∧
    DLOOP_Type_indexed_array_copy 4 2 [1, 0, 2, 2] [0, 99, 7, 9] [0, 0] [0, 0] false 4
      = .ok ([1, 4], [0, 28]) ∧
    DLOOP_Type_indexed_array_copy 4 2 [1, 0, 2, 2] [0, 99, 7, 9] [0, 0] [0, 0] false 4
      ≠ .error .output_index_out_of_bounds :=
  ⟨by decide, by decide,
   (C10_copier_stays_in_bounds 4 [1, 0, 2, 2] [0, 99, 7, 9] false 4 2 [0, 0] [0, 0]
      (by decide) (by decide) ⟨1, by decide, by decide⟩ (by decide) (by decide)
      (by decide)).2.2.1⟩

theorem exists_getElem?_of_lt (rs : List (Int × Int)) {i : Nat} (h : i < rs.length) :
    ∃ r, rs[i]? = some r :=
  ⟨rs[i], List.getElem?_eq_getElem h⟩

theorem input_runs_not_adjacent (E : Int) (bl bdisp : List Int) (first k : Nat)
    (o1 l1 o2 l2 : Int) (h1 : (input_runs E bl bdisp first)[k]? = some (o1, l1))
    (h2 : (input_runs E bl bdisp first)[k + 1]? = some (o2, l2)) : o1 + l1 * E ≠ o2 := by
  cases hb : bl[first]? with
  | none => simp [input_runs, hb] at h1
  | some b0 =>
    cases hd : bdisp[first]? with
    | none => simp [input_runs, hb, hd] at h1
    | some d0 =>
      simp only [input_runs, hb, hd] at h1 h2
      exact merged_runs_not_adjacent E _ _ _ _ k o1 l1 o2 l2 h1 h2

theorem input_runs_pos (E : Int) {bl : List Int} (bdisp : List Int) {first : Nat}
    (hf : First_nonzero_at bl first) (hnn : ∀ b ∈ bl, 0 ≤ b) :
    ∀ r ∈ input_runs E bl bdisp first, 0 < r.2 := by
  intro r hr
  unfold input_runs at hr
  split at hr
  · rename_i b0 d0 hb0 hd0
    obtain ⟨_, b, hb, hbne⟩ := hf
    rw [hb] at hb0
    have hbb : b = b0 := Option.some.inj hb0
    subst hbb
    have h0 : 0 ≤ b := hnn b (List.getElem?_mem hb)
    exact merged_runs_pos E _ _ d0 b (lt_of_le_of_ne h0 (Ne.symm hbne))
      (fun x hx => hnn x (List.mem_of_mem_drop hx)) r hr
  · simp at hr

theorem input_runs_origin (E : Int) {bl : List Int} (bdisp : List Int) {first : Nat}
    (hf : First_nonzero_at bl first) :
    ∀ r ∈ input_runs E bl bdisp first,
      ∃ (j : Nat) (b : Int), bl[j]? = some b ∧ b ≠ 0 ∧ bdisp[j]? = some r.1 := by
  intro r hr
  unfold input_runs at hr
  split at hr
  · rename_i b0 d0 hb0 hd0
    obtain ⟨_, b, hb, hbne⟩ := hf
    rcases merged_runs_origin E _ _ d0 b0 r hr with h | ⟨j, b1, h1, h2, h3⟩
    · exact ⟨first, b, hb, hbne, by rw [h]; exact hd0⟩
    · rw [List.getElem?_drop] at h1 h3
      exact ⟨first + 1 + j, b1, h1, h2, h3⟩
  · simp at hr

/-- C7 (maximal compaction): for an input with a block of nonzero length, in
either unit, the copier (run with the count of the counter and output arrays
with room for it) completes its loops, and no two consecutive entries it has
written are adjacent: `offset[i] + blocksize[i] * extent` differs from
`offset[i + 1]` for all slots `i`, `i + 1` up to the final `cur_idx`. -/
theorem C7_written_entries_not_adjacent (count : Int) (bl disp : List Int) (dispinbytes : Bool)
    (E cc : Int) (ob od : List Int)
    (hbl : bl.length = count.toNat) (hdisp : disp.length = count.toNat)
    (hnz : ∃ b ∈ bl, b ≠ 0)
    (hrun : MPIR_Type_indexed_count_contig count bl disp dispinbytes E = .ok cc)
    (hob : cc.toNat ≤ ob.length) (hod : cc.toNat ≤ od.length) :
    ∃ s, DLOOP_Type_indexed_array_copy_loops count cc bl disp ob od dispinbytes E = .ok s ∧
      ∀ i, i + 1 ≤ s.cur_idx →
        ∃ o l o1, s.out_disp_array[i]? = some o ∧ s.out_blklen_array[i]? = some l ∧
          s.out_disp_array[i + 1]? = some o1 ∧ o + l * E ≠ o1 := by
  obtain ⟨first, s, hf, hs, w1, _, _, _, _, w5⟩ :=
    array_copy_loops_of_count dispinbytes E cc ob od hbl hdisp hnz hrun hob hod
  refine ⟨s, hs, ?_⟩
  intro i hi
  obtain ⟨⟨o, l⟩, h1⟩ := exists_getElem?_of_lt
    (input_runs E bl (byte_displacements dispinbytes E disp) first) (show i < _ by omega)
  obtain ⟨⟨o1, l1⟩, h2⟩ := exists_getElem?_of_lt
    (input_runs E bl (byte_displacements dispinbytes E disp) first) (show i + 1 < _ by omega)
  exact ⟨o, l, o1, (w5 i o l h1).1, (w5 i o l h1).2, (w5 (i + 1) o1 l1 h2).1,
    input_runs_not_adjacent E _ _ first i o l o1 l1 h1 h2⟩

/-- A witness for C7: lengths 1, 1, 2 at element displacements 0, 1, 5 over a
type of extent 4 are copied as the entries (0, 2) and (20, 2), and
0 + 2 * 4 is not 20. -/
theorem C7_written_entries_not_adjacent_witness :
    DLOOP_Type_indexed_array_copy_loops 3 2 [1, 1, 2] [0, 1, 5] [0, 0] [0, 0] false 4
      = .ok ⟨[2, 2], [0, 20], 1⟩ ∧
    ∃ s, DLOOP_Type_indexed_array_copy_loops 3 2 [1, 1, 2] [0, 1, 5] [0, 0] [0, 0] false 4
        = .ok s ∧
      ∀ i, i + 1 ≤ s.cur_idx →
        ∃ o l o1, s.out_disp_array[i]? = some o ∧ s.out_blklen_array[i]? = some l ∧
          s.out_disp_array[i + 1]? = some o1 ∧ o + l * 4 ≠ o1 :=
  ⟨by decide,
   C7_written_entries_not_adjacent 3 [1, 1, 2] [0, 1, 5] false 4 2 [0, 0] [0, 0]
    (by decide) (by decide) ⟨1, by decide, by decide⟩ (by decide) (by decide) (by decide)⟩

/-- C8 (positive block lengths): for an input with non-negative block lengths
and a block of nonzero length, the copier (run with the count of the counter
and output arrays with room for it) completes its loops, every block length it
has written, in the slots up to the final `cur_idx`, is strictly positive, and
every entry it has written starts at the byte displacement of an input block
of nonzero length. -/
theorem C8_written_lengths_positive (count : Int) (bl disp : List Int) (dispinbytes : Bool)
    (E cc : Int) (ob od : List Int)
    (hbl : bl.length = count.toNat) (hdisp : disp.length = count.toNat)
    (hnn : ∀ b ∈ bl, 0 ≤ b) (hnz : ∃ b ∈ bl, b ≠ 0)
    (hrun : MPIR_Type_indexed_count_contig count bl disp dispinbytes E = .ok cc)
    (hob : cc.toNat ≤ ob.length) (hod : cc.toNat ≤ od.length) :
    ∃ s, DLOOP_Type_indexed_array_copy_loops count cc bl disp ob od dispinbytes E = .ok s ∧
      ∀ i, i ≤ s.cur_idx →
        (∃ l, s.out_blklen_array[i]? = some l ∧ 0 < l) ∧
        (∃ (o : Int) (j : Nat) (b : Int), s.out_disp_array[i]? = some o ∧ bl[j]? = some b ∧
          b ≠ 0 ∧ (byte_displacements dispinbytes E disp)[j]? = some o) := by
  obtain ⟨first, s, hf, hs, w1, _, _, _, _, w5⟩ :=
    array_copy_loops_of_count dispinbytes E cc ob od hbl hdisp hnz hrun hob hod
  refine ⟨s, hs, ?_⟩
  intro i hi
  have hlt : i < (input_runs E bl (byte_displacements dispinbytes E disp) first).length := by
    omega
  have hget := List.getElem?_eq_getElem hlt
  have hmem := List.getElem_mem hlt
  generalize (input_runs E bl (byte_displacements dispinbytes E disp) first)[i] = r at hget hmem
  obtain ⟨o, l⟩ := r
  have hw := w5 i o l hget
  refine ⟨⟨l, hw.2, input_runs_pos E _ hf hnn _ hmem⟩, ?_⟩
  obtain ⟨j, b, hb, hb0, hd⟩ := input_runs_origin E _ hf _ hmem
  exact ⟨o, j, b, hw.1, hb, hb0, hd⟩

/-- A witness for C8: lengths 0, 3, 0, 1 at byte displacements 8, 16, 99, 64
over a type of extent 4 are copied as the entries (16, 3) and (64, 1). -/
theorem C8_written_lengths_positive_witness :
    DLOOP_Type_indexed_array_copy_loops 4 2 [0, 3, 0, 1] [8, 16, 99, 64] [0, 0] [0, 0] true 4
      = .ok ⟨[3, 1], [16, 64], 1⟩ ∧
    ∃ s, DLOOP_Type_indexed_array_copy_loops 4 2 [0, 3, 0, 1] [8, 16, 99, 64] [0, 0] [0, 0] true 4
        = .ok s ∧
      ∀ i, i ≤ s.cur_idx →
        (∃ l, s.out_blklen_array[i]? = some l ∧ 0 < l) ∧
        (∃ (o : Int) (j : Nat) (b : Int), s.out_disp_array[i]? = some o ∧
          [(0 : Int), 3, 0, 1][j]? = some b ∧
          b ≠ 0 ∧ (byte_displacements true 4 [8, 16, 99, 64])[j]? = some o) :=
  ⟨by decide,
   C8_written_lengths_positive 4 [0, 3, 0, 1] [8, 16, 99, 64] true 4 2 [0, 0] [0, 0]
    (by decide) (by decide) (by decide) ⟨3, by decide, by decide⟩ (by decide) (by decide)
    (by decide)⟩

/-- For a nonzero extent the counter returns the same for displacements in
elements and for these displacements times the extent, in bytes. -/
theorem count_contig_units_agree (count : Int) (bl disp : List Int) {E : Int} (hE : E ≠ 0) :
    MPIR_Type_indexed_count_contig count bl disp false E
      = MPIR_Type_indexed_count_contig count bl (disp.map (· * E)) true E := by
  unfold MPIR_Type_indexed_count_contig
  by_cases hc : count ≠ 0
  · simp only [hc, ↓reduceIte, ne_eq, not_false_eq_true]
    cases skip_zero_blocks bl count.toNat 0 with
    | error e => rfl
    | ok first =>
      simp only
      by_cases hfc : (first : Int) = count
      · simp only [hfc, ↓reduceIte]
      · simp only [hfc, ↓reduceIte]
        cases in_read bl first with
        | error e => rfl
        | ok b0 =>
          simp only [Bool.not_false, ↓reduceIte, Bool.not_true, Bool.false_eq_true, in_read_map]
          cases in_read disp first with
          | error e => rfl
          | ok d0 =>
            simp only [Except.map]
            exact (count_contig_loop_bytes_scaled bl disp hE _ _ _ _ _).symm
  · simp only [hc, ↓reduceIte]

/-- For every extent the copy loops do the same for displacements in elements
and for these displacements times the extent, in bytes. -/
theorem array_copy_loops_units_agree (count cc : Int) (bl disp ob od : List Int) (E : Int) :
    DLOOP_Type_indexed_array_copy_loops count cc bl disp ob od false E
      = DLOOP_Type_indexed_array_copy_loops count cc bl (disp.map (· * E)) ob od true E := by
  unfold DLOOP_Type_indexed_array_copy_loops
  cases skip_zero_blocks bl count.toNat 0 with
  | error e => rfl
  | ok first =>
    simp only
    cases in_read bl first with
    | error e => rfl
    | ok b0 =>
      simp only
      cases out_write ob 0 b0 with
      | error e => rfl
      | ok ob1 =>
        simp only [Bool.not_false, ↓reduceIte, Bool.not_true, Bool.false_eq_true, in_read_map]
        cases in_read disp first with
        | error e => rfl
        | ok d0 =>
          simp only [Except.map]
          cases out_write od 0 (d0 * E) with
          | error e => rfl
          | ok od1 =>
            simp only
            exact array_copy_loop_elements_eq_bytes bl disp cc E _ _ _

/-- For every extent the copier does the same for displacements in elements and
for these displacements times the extent, in bytes. -/
theorem array_copy_units_agree (count cc : Int) (bl disp ob od : List Int) (E : Int) :
    DLOOP_Type_indexed_array_copy count cc bl disp ob od false E
      = DLOOP_Type_indexed_array_copy count cc bl (disp.map (· * E)) ob od true E := by
  unfold DLOOP_Type_indexed_array_copy
  rw [array_copy_loops_units_agree]

/-- The general indexed branch does the same for displacements in elements and
for these displacements times the extent, in bytes. -/
theorem create_indexed_general_units_agree (env : DLOOP_Collaborators) (count : Int)
    (bl disp : List Int) (oldtype : MPI_Datatype) (is_builtin : Bool)
    (E old_type_count cc : Int) (outs : DLOOP_Outputs) :
    create_indexed_general env count bl disp false oldtype is_builtin E old_type_count cc outs
      = create_indexed_general env count bl (disp.map (· * E)) true oldtype is_builtin E
          old_type_count cc outs := by
  unfold create_indexed_general
  simp only [array_copy_units_agree]

/-- C9 as stated fails for extent 0.  For the lengths 1, 2 at element
displacements 0, 5 the counter returns 2 in element units and 1 for the byte
displacements 0 * 0, 5 * 0.  For one block of length 1 at element displacement
5 the builder calls the block-indexed constructor, and for the byte
displacement 5 * 0 the contiguous constructor. -/
theorem C9_extent_zero_counterexample :
    MPIR_Type_indexed_count_contig 2 [1, 2] [0, 5] false 0 = .ok 2 ∧
    MPIR_Type_indexed_count_contig 2 [1, 2] ([0, 5].map (· * 0)) true 0 = .ok 1 ∧
    MPIR_Dataloop_create_indexed (example_env 0 4) 1 [1] [5] false 7 no_outputs
      = .ok ((example_env 0 4).create_blockindexed 1 1 [5] false 7 no_outputs) ∧
    MPIR_Dataloop_create_indexed (example_env 0 4) 1 [1] ([5].map (· * 0)) true 7 no_outputs
      = .ok ((example_env 0 4).create_contiguous 1 7 no_outputs) ∧
    MPIR_Dataloop_create_indexed (example_env 0 4) 1 [1] [5] false 7 no_outputs
      ≠ MPIR_Dataloop_create_indexed (example_env 0 4) 1 [1] ([5].map (· * 0)) true 7
          no_outputs := by
  decide

/-- C9, amended (displacement units): an input with displacements `d` in
elements and the input with the displacements `d[i] * E` in bytes, `E` the
extent of the base type, give the same.  For a nonzero extent the counter
returns the same run count; for every extent the copier writes the same two
arrays; and for a nonzero extent the builder takes the same branch with the
same counts and lengths, so that it returns the same result whenever the
block-indexed constructor, which gets the displacements and the unit flag as
they are, returns the same for the two units. -/
theorem C9_units_agree (env : DLOOP_Collaborators) (count : Int) (bl disp : List Int)
    (oldtype : MPI_Datatype) (outs : DLOOP_Outputs) :
    (env.get_extent oldtype ≠ 0 →
      MPIR_Type_indexed_count_contig count bl disp false (env.get_extent oldtype)
        = MPIR_Type_indexed_count_contig count bl (disp.map (· * env.get_extent oldtype)) true
            (env.get_extent oldtype)) ∧
    (∀ (cc : Int) (ob od : List Int),
      DLOOP_Type_indexed_array_copy count cc bl disp ob od false (env.get_extent oldtype)
        = DLOOP_Type_indexed_array_copy count cc bl (disp.map (· * env.get_extent oldtype))
            ob od true (env.get_extent oldtype)) ∧
    (env.get_extent oldtype ≠ 0 →
      (∀ (n blklen : Int) (ds : List Int),
        env.create_blockindexed n blklen ds false oldtype outs
          = env.create_blockindexed n blklen (ds.map (· * env.get_extent oldtype)) true
              oldtype outs) →
      MPIR_Dataloop_create_indexed env count bl disp false oldtype outs
        = MPIR_Dataloop_create_indexed env count bl (disp.map (· * env.get_extent oldtype))
            true oldtype outs) := by
  refine ⟨fun hE => count_contig_units_agree count bl disp hE,
    fun cc ob od => array_copy_units_agree count cc bl disp ob od _, ?_⟩
  intro hE hbi
  unfold MPIR_Dataloop_create_indexed
  simp only [← count_contig_units_agree count bl disp hE, in_read_map, ← List.map_drop, ← hbi,
    ← create_indexed_general_units_agree]
  by_cases hc : count = 0
  · simp only [hc, ↓reduceIte]
  · simp only [hc, ↓reduceIte]
    cases skip_zero_blocks bl count.toNat 0 with
    | error e => rfl
    | ok first =>
      simp only
      cases sum_blocklengths_loop bl (count.toNat - first) first 0 with
      | error e => rfl
      | ok old_type_count =>
        simp only
        cases MPIR_Type_indexed_count_contig count bl disp false (env.get_extent oldtype) with
        | error e => rfl
        | ok cc =>
          simp only
          by_cases h0 : cc = 0
          · simp only [h0, ↓reduceIte]
          · simp only [h0, ↓reduceIte]
            by_cases h1 : cc = 1
            · simp only [h1, ↓reduceIte]
              cases in_read disp first with
              | error e => rfl
              | ok d =>
                simp only [Except.map, mul_eq_zero, hE, or_false]
            · simp only [h1, ↓reduceIte]

/-- A witness for C9: lengths 2, 1, 3 at element displacements 1, 3, 9 over a
type of extent 8, and the same blocks at byte displacements 8, 24, 72. -/
theorem C9_units_agree_witness :
    MPIR_Type_indexed_count_contig 3 [2, 1, 3] [1, 3, 9] false 8 = .ok 2 ∧
    MPIR_Type_indexed_count_contig 3 [2, 1, 3] [8, 24, 72] true 8 = .ok 2 ∧
    DLOOP_Type_indexed_array_copy 3 2 [2, 1, 3] [1, 3, 9] [0, 0] [0, 0] false 8
      = .ok ([3, 3], [8, 72]) ∧
    MPIR_Dataloop_create_indexed (example_env 8 8) 3 [2, 1, 3] [1, 3, 9] false 7 no_outputs
      = MPIR_Dataloop_create_indexed (example_env 8 8) 3 [2, 1, 3]
          ([1, 3, 9].map (· * (example_env 8 8).get_extent 7)) true 7 no_outputs :=
  ⟨by decide, by decide, by decide,
   (C9_units_agree (example_env 8 8) 3 [2, 1, 3] [1, 3, 9] 7 no_outputs).2.2 (by decide)
    (fun n blklen ds => by
      simp [example_env, byte_displacements])⟩

/-- For an input with at least 2 runs in which a block after the first block of
nonzero length has another length, the builder returns what its general
indexed branch returns. -/
theorem create_indexed_eq_general (env : DLOOP_Collaborators) {count : Int}
    {bl : List Int} (disp : List Int) (dispinbytes : Bool) (oldtype : MPI_Datatype)
    (outs : DLOOP_Outputs) {first : Nat} {blksz cc : Int} (hbl : bl.length = count.toNat)
    (hf : First_nonzero_at bl first) (hfirst : bl[first]? = some blksz)
    (hrun : MPIR_Type_indexed_count_contig count bl disp dispinbytes (env.get_extent oldtype)
      = .ok cc)
    (hcc : 2 ≤ cc)
    (hnon : ∃ (j : Nat) (b : Int), first < j ∧ bl[j]? = some b ∧ b ≠ blksz) :
    MPIR_Dataloop_create_indexed env count bl disp dispinbytes oldtype outs
      = create_indexed_general env count bl disp dispinbytes oldtype
          (if env.hasloop oldtype then false else true) (env.get_extent oldtype)
          bl.sum cc outs := by
  obtain ⟨hc, hskip, hsum⟩ := create_indexed_prelude hbl hf
  have hlt := first_nonzero_lt_length hf
  have h0 : ¬ (cc = 0) := by omega
  have h1 : ¬ (cc = 1) := by omega
  have hu := uniform_blksz_loop_some bl blksz (count.toNat - (first + 1)) (first + 1)
    (by omega) (by
      obtain ⟨j, b, hj, hb, hne⟩ := hnon
      exact ⟨j, b, by omega, hb, hne⟩)
  have hne : ¬ (blksz - 1 = blksz) := by omega
  unfold MPIR_Dataloop_create_indexed
  simp only [hc, ↓reduceIte, hskip, hsum, hrun, h0, h1, in_read_of_getElem? hfirst, hu, hne]

/-- What the builder returns from its general indexed branch: -1 and the
outputs as they were when the allocator gives no node; and when it returns
`MPI_SUCCESS`, the node of the allocator with all its fields set, together with
the size the allocator has given. -/
theorem create_indexed_general_branch_returns (env : DLOOP_Collaborators) (count : Int)
    (bl disp : List Int) (dispinbytes : Bool) (oldtype : MPI_Datatype) (outs : DLOOP_Outputs)
    (first : Nat) (blksz cc : Int) (hbl : bl.length = count.toNat)
    (hf : First_nonzero_at bl first) (hfirst : bl[first]? = some blksz)
    (hrun : MPIR_Type_indexed_count_contig count bl disp dispinbytes (env.get_extent oldtype)
      = .ok cc)
    (hcc : 2 ≤ cc)
    (hnon : ∃ (j : Nat) (b : Int), first < j ∧ bl[j]? = some b ∧ b ≠ blksz) :
    ((if env.hasloop oldtype then
        env.alloc_and_copy .DLOOP_KIND_INDEXED cc (env.get_loopptr oldtype)
          (env.get_loopsize oldtype)
      else env.alloc .DLOOP_KIND_INDEXED count) = none →
      MPIR_Dataloop_create_indexed env count bl disp dispinbytes oldtype outs
        = .ok (-1, outs)) ∧
    (∀ outs1, MPIR_Dataloop_create_indexed env count bl disp dispinbytes oldtype outs
        = .ok (MPI_SUCCESS, outs1) →
      ∃ (node : MPIR_Dataloop) (sz : Int) (ob od : List Int),
        (if env.hasloop oldtype then
          env.alloc_and_copy .DLOOP_KIND_INDEXED cc (env.get_loopptr oldtype)
            (env.get_loopsize oldtype)
        else env.alloc .DLOOP_KIND_INDEXED count) = some (node, sz) ∧
        DLOOP_Type_indexed_array_copy count cc bl disp node.blocksize_array node.offset_array
          dispinbytes (env.get_extent oldtype) = .ok (ob, od) ∧
        outs1 = ⟨some { kind := ⟨.DLOOP_KIND_INDEXED, !env.hasloop oldtype⟩
                        el_size := if env.hasloop oldtype then env.get_size oldtype
                                   else env.get_extent oldtype
                        el_extent := env.get_extent oldtype
                        el_type := if env.hasloop oldtype then env.get_basic_type oldtype
                                   else oldtype
                        count := cc
                        total_blocks := bl.sum
                        blocksize_array := ob
                        offset_array := od
                        dataloop := node.dataloop }, sz⟩) := by
  rw [create_indexed_eq_general env disp dispinbytes oldtype outs hbl hf hfirst hrun hcc hnon]
  unfold create_indexed_general
  cases hh : env.hasloop oldtype with
  | true =>
    simp only [↓reduceIte, Bool.false_eq_true, Bool.not_true]
    cases ha : env.alloc_and_copy .DLOOP_KIND_INDEXED cc (env.get_loopptr oldtype)
        (env.get_loopsize oldtype) with
    | none => simp [MPI_SUCCESS]
    | some p =>
      obtain ⟨node, sz⟩ := p
      simp only [reduceCtorEq, false_implies, true_and, Option.some.injEq, Prod.mk.injEq]
      intro outs1
      cases hcp : DLOOP_Type_indexed_array_copy count cc bl disp node.blocksize_array
          node.offset_array dispinbytes (env.get_extent oldtype) with
      | error e => simp
      | ok r =>
        obtain ⟨ob, od⟩ := r
        simp only [Except.ok.injEq, Prod.mk.injEq, true_and]
        intro h
        exact ⟨node, sz, ob, od, ⟨rfl, rfl⟩, hcp, h.symm⟩
  | false =>
    simp only [↓reduceIte, Bool.false_eq_true, Bool.not_false]
    cases ha : env.alloc .DLOOP_KIND_INDEXED count with
    | none => simp [MPI_SUCCESS]
    | some p =>
      obtain ⟨node, sz⟩ := p
      simp only [reduceCtorEq, false_implies, true_and, Option.some.injEq, Prod.mk.injEq]
      intro outs1
      cases hcp : DLOOP_Type_indexed_array_copy count cc bl disp node.blocksize_array
          node.offset_array dispinbytes (env.get_extent oldtype) with
      | error e => simp
      | ok r =>
        obtain ⟨ob, od⟩ := r
        simp only [Except.ok.injEq, Prod.mk.injEq, true_and]
        intro h
        exact ⟨node, sz, ob, od, ⟨rfl, rfl⟩, hcp, h.symm⟩

/-- C11 (allocation failure is atomic): for an input that reaches the general
indexed branch, if the allocator the branch calls (`MPIR_Dataloop_alloc` for
`count` slots over a primitive type, `MPIR_Dataloop_alloc_and_copy` for
`contig_count` slots over a compound type) gives no node, the builder returns
-1 and the outputs are as before the call; and whenever the builder returns
`MPI_SUCCESS`, the allocator has given a node, the copier has completed on the
arrays of that node, and the outputs are the node with all its fields set and
the size the allocator has given. -/
theorem C11_allocation_failure_is_atomic (env : DLOOP_Collaborators) (count : Int)
    (bl disp : List Int) (dispinbytes : Bool) (oldtype : MPI_Datatype) (outs : DLOOP_Outputs)
    (first : Nat) (blksz cc : Int) (hbl : bl.length = count.toNat)
    (hf : First_nonzero_at bl first) (hfirst : bl[first]? = some blksz)
    (hrun : MPIR_Type_indexed_count_contig count bl disp dispinbytes (env.get_extent oldtype)
      = .ok cc)
    (hcc : 2 ≤ cc)
    (hnon : ∃ (j : Nat) (b : Int), first < j ∧ bl[j]? = some b ∧ b ≠ blksz) :
    ((if env.hasloop oldtype then
        env.alloc_and_copy .DLOOP_KIND_INDEXED cc (env.get_loopptr oldtype)
          (env.get_loopsize oldtype)
      else env.alloc .DLOOP_KIND_INDEXED count) = none →
      MPIR_Dataloop_create_indexed env count bl disp dispinbytes oldtype outs
        = .ok (-1, outs)) ∧
    (∀ outs1, MPIR_Dataloop_create_indexed env count bl disp dispinbytes oldtype outs
        = .ok (MPI_SUCCESS, outs1) →
      ∃ (node : MPIR_Dataloop) (sz : Int) (ob od : List Int),
        (if env.hasloop oldtype then
          env.alloc_and_copy .DLOOP_KIND_INDEXED cc (env.get_loopptr oldtype)
            (env.get_loopsize oldtype)
        else env.alloc .DLOOP_KIND_INDEXED count) = some (node, sz) ∧
        DLOOP_Type_indexed_array_copy count cc bl disp node.blocksize_array node.offset_array
          dispinbytes (env.get_extent oldtype) = .ok (ob, od) ∧
        outs1 = ⟨some { kind := ⟨.DLOOP_KIND_INDEXED, !env.hasloop oldtype⟩
                        el_size := if env.hasloop oldtype then env.get_size oldtype
                                   else env.get_extent oldtype
                        el_extent := env.get_extent oldtype
                        el_type := if env.hasloop oldtype then env.get_basic_type oldtype
                                   else oldtype
                        count := cc
                        total_blocks := bl.sum
                        blocksize_array := ob
                        offset_array := od
                        dataloop := node.dataloop }, sz⟩) :=
  create_indexed_general_branch_returns env count bl disp dispinbytes oldtype outs first blksz cc
    hbl hf hfirst hrun hcc hnon

/-- A witness for C11: lengths 1, 2 at element displacements 0, 5 with
allocators that fail, over the primitive type 7 and over the compound type
100: the builder returns -1 and the outputs stay as they were. -/
theorem C11_allocation_failure_is_atomic_witness :
    MPIR_Dataloop_create_indexed (failing_alloc_env 4 4) 2 [1, 2] [0, 5] false 7
        ⟨none, 17⟩ = .ok (-1, ⟨none, 17⟩) ∧
    MPIR_Dataloop_create_indexed (failing_alloc_env 4 4) 2 [1, 2] [0, 5] false 100
        ⟨none, 17⟩ = .ok (-1, ⟨none, 17⟩) :=
  ⟨(C11_allocation_failure_is_atomic (failing_alloc_env 4 4) 2 [1, 2] [0, 5] false 7 ⟨none, 17⟩
      0 1 2 (by decide) ⟨fun j hj => absurd hj (Nat.not_lt_zero j), 1, by decide, by decide⟩
      (by decide) (by decide) (by decide) ⟨1, 2, by decide, by decide, by decide⟩).1
      (by decide),
   (C11_allocation_failure_is_atomic (failing_alloc_env 4 4) 2 [1, 2] [0, 5] false 100 ⟨none, 17⟩
      0 1 2 (by decide) ⟨fun j hj => absurd hj (Nat.not_lt_zero j), 1, by decide, by decide⟩
      (by decide) (by decide) (by decide) ⟨1, 2, by decide, by decide, by decide⟩).1
      (by decide)⟩

/-- The runs from the first block of nonzero length on are the runs of the
whole input. -/
theorem input_runs_eq_all_runs (E : Int) :
    ∀ (bl bdisp : List Int) (first : Nat), First_nonzero_at bl first → first < bdisp.length →
      input_runs E bl bdisp first = all_runs E bl bdisp := by
  intro bl
  induction bl with
  | nil =>
    intro bdisp first hf _
    have := first_nonzero_lt_length hf
    simp at this
  | cons b bs ih =>
    intro bdisp first hf hlt
    cases bdisp with
    | nil => simp at hlt
    | cons d ds =>
      obtain ⟨hz, b1, hb1, hb1ne⟩ := hf
      cases first with
      | zero =>
        simp only [List.getElem?_cons_zero, Option.some.injEq] at hb1
        subst hb1
        simp [input_runs, all_runs, hb1ne]
      | succ k =>
        have hb0 : b = 0 := by simpa using hz 0 (by omega)
        have hfk : First_nonzero_at bs k :=
          ⟨fun j hj => by simpa using hz (j + 1) (by omega), b1, by simpa using hb1, hb1ne⟩
        have := ih ds k hfk (by simpa using hlt)
        simp only [all_runs, hb0, ↓reduceIte, ← this]
        simp [input_runs]

/-- An input without a block of nonzero length has no run. -/
theorem all_runs_all_zero (E : Int) :
    ∀ (bl bdisp : List Int), (∀ b ∈ bl, b = 0) → all_runs E bl bdisp = [] := by
  intro bl
  induction bl with
  | nil => intro bdisp _; cases bdisp <;> rfl
  | cons b bs ih =>
    intro bdisp hz
    cases bdisp with
    | nil => rfl
    | cons d ds =>
      have hb0 : b = 0 := hz b (List.mem_cons_self _ _)
      simp only [all_runs, hb0, ↓reduceIte]
      exact ih ds (fun x hx => hz x (List.mem_cons_of_mem _ hx))

/-- For a positive `count` and arrays of `count` entries the counter returns the
number of runs of the input: for the extent in byte mode, for extent 1 in
element mode. -/
theorem count_contig_eq_all_runs {count : Int} {bl disp : List Int} (dispinbytes : Bool)
    (E : Int) (hpos : 0 < count) (hbl : bl.length = count.toNat)
    (hdisp : disp.length = count.toNat) :
    MPIR_Type_indexed_count_contig count bl disp dispinbytes E
      = .ok ((all_runs (if dispinbytes then E else 1) bl disp).length : Int) := by
  by_cases hnz : ∃ b ∈ bl, b ≠ 0
  · obtain ⟨first, hf⟩ := exists_first_nonzero bl hnz
    have hlt := first_nonzero_lt_length hf
    rw [count_contig_eq_runs dispinbytes E hbl hdisp hf,
      input_runs_eq_all_runs _ bl disp first hf (by omega)]
  · have hz : ∀ b ∈ bl, b = 0 := by
      intro b hb
      by_contra hne
      exact hnz ⟨b, hb, hne⟩
    have hc : count ≠ 0 := by omega
    have hskip := skip_zero_blocks_all_zero hz count.toNat 0 (by omega)
    unfold MPIR_Type_indexed_count_contig
    rw [if_pos hc, hskip]
    have : ((bl.length : Nat) : Int) = count := by omega
    simp only [this, ↓reduceIte, all_runs_all_zero _ bl disp hz, List.length_nil, Nat.cast_zero]

/-- The blocks that follow a run open at most one run for each block of nonzero
length. -/
theorem merged_runs_length_le_countP (E : Int) :
    ∀ (bs ds : List Int) (o l : Int),
      (merged_runs E bs ds o l).length ≤ 1 + bs.countP (fun b => decide (b ≠ 0)) := by
  intro bs
  induction bs with
  | nil => intro ds o l; simp [merged_runs]
  | cons b bs ih =>
    intro ds o l
    cases ds with
    | nil => simp [merged_runs]
    | cons d ds =>
      unfold merged_runs
      by_cases hb0 : b = 0
      · simp only [hb0, ↓reduceIte]
        have := ih ds o l
        simp only [List.countP_cons]
        omega
      · simp only [hb0, ↓reduceIte]
        have hc : (b :: bs).countP (fun b => decide (b ≠ 0))
            = bs.countP (fun b => decide (b ≠ 0)) + 1 := by
          simp [List.countP_cons, hb0]
        rw [hc]
        by_cases hadj : o + l * E = d
        · simp only [hadj, ↓reduceIte]
          have := ih ds o (l + b)
          omega
        · simp only [hadj, ↓reduceIte, List.length_cons]
          have := ih ds d b
          omega

/-- An input has at most one run for each block of nonzero length. -/
theorem all_runs_length_le_countP (E : Int) :
    ∀ (bl bdisp : List Int),
      (all_runs E bl bdisp).length ≤ bl.countP (fun b => decide (b ≠ 0)) := by
  intro bl
  induction bl with
  | nil => intro bdisp; cases bdisp <;> simp [all_runs]
  | cons b bs ih =>
    intro bdisp
    cases bdisp with
    | nil => simp [all_runs]
    | cons d ds =>
      unfold all_runs
      by_cases hb0 : b = 0
      · simp only [hb0, ↓reduceIte]
        have := ih ds
        simp only [List.countP_cons]
        omega
      · simp only [hb0, ↓reduceIte]
        have hc : (b :: bs).countP (fun b => decide (b ≠ 0))
            = bs.countP (fun b => decide (b ≠ 0)) + 1 := by
          simp [List.countP_cons, hb0]
        rw [hc]
        have := merged_runs_length_le_countP E bs ds d b
        omega

/-- An input of equally long arrays with a block of nonzero length has a run. -/
theorem all_runs_length_pos (E : Int) (bl bdisp : List Int) (hlen : bl.length = bdisp.length)
    (hnz : ∃ b ∈ bl, b ≠ 0) : 0 < (all_runs E bl bdisp).length := by
  obtain ⟨first, hf⟩ := exists_first_nonzero bl hnz
  have hlt := first_nonzero_lt_length hf
  rw [← input_runs_eq_all_runs E bl bdisp first hf (by omega)]
  exact input_runs_length_pos E hlt (by omega)

/-- C12 (range of the run count): for a positive `count` the counter returns a
value `r`; `r` is 0 if and only if every block length is zero; and otherwise
`1 ≤ r ≤ (number of blocks of nonzero length) ≤ count`. -/
theorem C12_run_count_range (count : Int) (bl disp : List Int) (dispinbytes : Bool) (E : Int)
    (hpos : 0 < count) (hbl : bl.length = count.toNat) (hdisp : disp.length = count.toNat) :
    ∃ r : Int, MPIR_Type_indexed_count_contig count bl disp dispinbytes E = .ok r ∧
      (r = 0 ↔ ∀ b ∈ bl, b = 0) ∧
      ((∃ b ∈ bl, b ≠ 0) →
        1 ≤ r ∧ r ≤ (bl.countP (fun b => decide (b ≠ 0)) : Int) ∧
        (bl.countP (fun b => decide (b ≠ 0)) : Int) ≤ count) := by
  refine ⟨_, count_contig_eq_all_runs dispinbytes E hpos hbl hdisp, ?_, ?_⟩
  · constructor
    · intro h0 b hb
      by_contra hne
      have := all_runs_length_pos (if dispinbytes then E else 1) bl disp
        (by omega) ⟨b, hb, hne⟩
      omega
    · intro hz
      rw [all_runs_all_zero _ bl disp hz]
      rfl
  · intro hnz
    have h1 := all_runs_length_pos (if dispinbytes then E else 1) bl disp
      (by omega) hnz
    have h2 := all_runs_length_le_countP (if dispinbytes then E else 1) bl disp
    have h3 : bl.countP (fun b => decide (b ≠ 0)) ≤ bl.length := List.countP_le_length _
    omega

/-- A witness for C12: lengths 1, 0, 2, 2 at element displacements 0, 99, 7, 9
have 2 runs and 3 blocks of nonzero length. -/
theorem C12_run_count_range_witness :
    MPIR_Type_indexed_count_contig 4 [1, 0, 2, 2] [0, 99, 7, 9] false 4 = .ok 2 ∧
    ∃ r : Int, MPIR_Type_indexed_count_contig 4 [1, 0, 2, 2] [0, 99, 7, 9] false 4 = .ok r ∧
      (r = 0 ↔ ∀ b ∈ [(1 : Int), 0, 2, 2], b = 0) ∧
      ((∃ b ∈ [(1 : Int), 0, 2, 2], b ≠ 0) →
        1 ≤ r ∧ r ≤ ([(1 : Int), 0, 2, 2].countP (fun b => decide (b ≠ 0)) : Int) ∧
        ([(1 : Int), 0, 2, 2].countP (fun b => decide (b ≠ 0)) : Int) ≤ 4) :=
  ⟨by decide,
   C12_run_count_range 4 [1, 0, 2, 2] [0, 99, 7, 9] false 4 (by decide) (by decide) (by decide)⟩

theorem getElem?_of_in_read {a : List Int} {i : Nat} {v : Int} (h : in_read a i = .ok v) :
    a[i]? = some v := by
  unfold in_read at h
  cases ha : a[i]? with
  | none => simp [ha] at h
  | some w =>
    simp only [ha, Except.ok.injEq] at h
    rw [h]

/-- When the skip loop ends without an error, every block it has passed has
length zero. -/
theorem skip_zero_blocks_ok (bl : List Int) :
    ∀ n i f, skip_zero_blocks bl n i = .ok f →
      i ≤ f ∧ f ≤ i + n ∧ ∀ j, i ≤ j → j < f → bl[j]? = some 0 := by
  intro n
  induction n with
  | zero =>
    intro i f h
    simp only [skip_zero_blocks, Except.ok.injEq] at h
    subst h
    exact ⟨le_refl _, le_refl _, fun j h1 h2 => by omega⟩
  | succ n ih =>
    intro i f h
    unfold skip_zero_blocks at h
    cases hb : in_read bl i with
    | error e => simp [hb] at h
    | ok b =>
      simp only [hb] at h
      by_cases hb0 : b = 0
      · simp only [hb0, ne_eq, not_true_eq_false, ↓reduceIte] at h
        obtain ⟨h1, h2, h3⟩ := ih (i + 1) f h
        refine ⟨by omega, by omega, ?_⟩
        intro j hj1 hj2
        rcases Nat.eq_or_lt_of_le hj1 with rfl | hlt
        · rw [getElem?_of_in_read hb, hb0]
        · exact h3 j hlt hj2
      · simp only [ne_eq, hb0, not_false_eq_true, ↓reduceIte, Except.ok.injEq] at h
        subst h
        exact ⟨le_refl _, by omega, fun j h1 h2 => by omega⟩

/-- The element-mode counting loop never lowers `contig_count`. -/
theorem count_contig_loop_elements_ge (bl disp : List Int) :
    ∀ (n i : Nat) (o l cc r : Int), count_contig_loop_elements bl disp n i o l cc = .ok r → cc ≤ r := by
  intro n
  induction n with
  | zero =>
    intro i o l cc r h
    simp only [count_contig_loop_elements, Except.ok.injEq] at h
    subst h
    exact le_refl _
  | succ n ih =>
    intro i o l cc r h
    unfold count_contig_loop_elements at h
    cases hb : in_read bl i with
    | error e => simp [hb] at h
    | ok b =>
      simp only [hb] at h
      by_cases hb0 : b = 0
      · simp only [hb0, ↓reduceIte] at h
        exact ih _ _ _ _ _ h
      · simp only [hb0, ↓reduceIte] at h
        cases hd : in_read disp i with
        | error e => simp [hd] at h
        | ok d =>
          simp only [hd] at h
          by_cases hadj : o + l = d
          · simp only [hadj, ↓reduceIte] at h
            exact ih _ _ _ _ _ h
          · simp only [hadj, ↓reduceIte] at h
            have := ih _ _ _ _ _ h
            omega

/-- The byte-mode counting loop never lowers `contig_count`. -/
theorem count_contig_loop_bytes_ge (bl disp : List Int) (E : Int) :
    ∀ (n i : Nat) (o l cc r : Int), count_contig_loop_bytes bl disp E n i o l cc = .ok r → cc ≤ r := by
  intro n
  induction n with
  | zero =>
    intro i o l cc r h
    simp only [count_contig_loop_bytes, Except.ok.injEq] at h
    subst h
    exact le_refl _
  | succ n ih =>
    intro i o l cc r h
    unfold count_contig_loop_bytes at h
    cases hb : in_read bl i with
    | error e => simp [hb] at h
    | ok b =>
      simp only [hb] at h
      by_cases hb0 : b = 0
      · simp only [hb0, ↓reduceIte] at h
        exact ih _ _ _ _ _ h
      · simp only [hb0, ↓reduceIte] at h
        cases hd : in_read disp i with
        | error e => simp [hd] at h
        | ok d =>
          simp only [hd] at h
          by_cases hadj : o + l * E = d
          · simp only [hadj, ↓reduceIte] at h
            exact ih _ _ _ _ _ h
          · simp only [hadj, ↓reduceIte] at h
            have := ih _ _ _ _ _ h
            omega

/-- C20 (the counter called with `count == 0`): the counter returns 1, not 0,
for `count == 0`, whatever the arrays, the unit flag and the extent are; and it
returns 0 only for a positive `count` with all `count` block lengths zero. -/
theorem C20_count_zero_returns_one (count : Int) (bl disp bl0 disp0 : List Int)
    (dispinbytes : Bool) (E : Int) :
    MPIR_Type_indexed_count_contig 0 bl0 disp0 dispinbytes E = .ok 1 ∧
    (MPIR_Type_indexed_count_contig count bl disp dispinbytes E = .ok 0 →
      0 < count ∧ ∀ j, j < count.toNat → bl[j]? = some 0) := by
  refine ⟨by simp [MPIR_Type_indexed_count_contig], ?_⟩
  intro h
  unfold MPIR_Type_indexed_count_contig at h
  by_cases hc : count ≠ 0
  · simp only [hc, ↓reduceIte, ne_eq, not_false_eq_true] at h
    cases hs : skip_zero_blocks bl count.toNat 0 with
    | error e => simp [hs] at h
    | ok first =>
      simp only [hs] at h
      obtain ⟨_, h2, h3⟩ := skip_zero_blocks_ok bl _ _ _ hs
      by_cases hfc : (first : Int) = count
      · refine ⟨by omega, ?_⟩
        intro j hj
        exact h3 j (Nat.zero_le j) (by omega)
      · exfalso
        simp only [hfc, ↓reduceIte] at h
        cases hb : in_read bl first with
        | error e => simp [hb] at h
        | ok b0 =>
          simp only [hb] at h
          cases hd : in_read disp first with
          | error e => cases dispinbytes <;> simp [hd] at h
          | ok d0 =>
            cases dispinbytes with
            | true =>
              simp only [Bool.not_true, Bool.false_eq_true, ↓reduceIte, hd] at h
              have := count_contig_loop_bytes_ge bl disp E _ _ _ _ _ _ h
              omega
            | false =>
              simp only [Bool.not_false, ↓reduceIte, hd] at h
              have := count_contig_loop_elements_ge bl disp _ _ _ _ _ _ h
              omega
  · simp only [hc, ↓reduceIte] at h
    simp at h

/-- A witness for C20: with `count == 0` the counter returns 1 even when the
arrays hold blocks, and it returns 0 for two blocks of length zero. -/
theorem C20_count_zero_returns_one_witness :
    MPIR_Type_indexed_count_contig 0 [3, 4] [0, 9] true 4 = .ok 1 ∧
    MPIR_Type_indexed_count_contig 2 [0, 0] [5, 7] true 4 = .ok 0 ∧
    (0 < (2 : Int) ∧ ∀ j, j < (2 : Int).toNat → [(0 : Int), 0][j]? = some 0) :=
  ⟨(C20_count_zero_returns_one 2 [0, 0] [5, 7] [3, 4] [0, 9] true 4).1, by decide,
   (C20_count_zero_returns_one 2 [0, 0] [5, 7] [3, 4] [0, 9] true 4).2 (by decide)⟩

/-- Removing a block of length zero, with its displacement, from the blocks that
follow a run does not change the runs. -/
theorem merged_runs_eraseIdx (E : Int) :
    ∀ (bs ds : List Int) (o l : Int) (k : Nat), bs[k]? = some 0 → k < ds.length →
      merged_runs E (bs.eraseIdx k) (ds.eraseIdx k) o l = merged_runs E bs ds o l := by
  intro bs
  induction bs with
  | nil => intro ds o l k h _; simp at h
  | cons b bs ih =>
    intro ds o l k h hk
    cases ds with
    | nil => simp at hk
    | cons d ds =>
      cases k with
      | zero =>
        simp only [List.getElem?_cons_zero, Option.some.injEq] at h
        subst h
        simp [merged_runs]
      | succ k =>
        simp only [List.getElem?_cons_succ] at h
        simp only [List.length_cons, Nat.add_lt_add_iff_right] at hk
        simp only [List.eraseIdx_cons_succ]
        unfold merged_runs
        by_cases hb0 : b = 0
        · simp only [hb0, ↓reduceIte]
          exact ih ds o l k h hk
        · simp only [hb0, ↓reduceIte]
          by_cases hadj : o + l * E = d
          · simp only [hadj, ↓reduceIte]
            exact ih ds o (l + b) k h hk
          · simp only [hadj, ↓reduceIte]
            rw [ih ds d b k h hk]

/-- Removing a block of length zero, with its displacement, from an input does
not change its runs. -/
theorem all_runs_eraseIdx (E : Int) :
    ∀ (bl bdisp : List Int) (k : Nat), bl[k]? = some 0 → k < bdisp.length →
      all_runs E (bl.eraseIdx k) (bdisp.eraseIdx k) = all_runs E bl bdisp := by
  intro bl
  induction bl with
  | nil => intro bdisp k h _; simp at h
  | cons b bs ih =>
    intro bdisp k h hk
    cases bdisp with
    | nil => simp at hk
    | cons d ds =>
      cases k with
      | zero =>
        simp only [List.getElem?_cons_zero, Option.some.injEq] at h
        subst h
        simp [all_runs]
      | succ k =>
        simp only [List.getElem?_cons_succ] at h
        simp only [List.length_cons, Nat.add_lt_add_iff_right] at hk
        simp only [List.eraseIdx_cons_succ]
        unfold all_runs
        by_cases hb0 : b = 0
        · simp only [hb0, ↓reduceIte]
          exact ih ds k h hk
        · simp only [hb0, ↓reduceIte]
          exact merged_runs_eraseIdx E bs ds d b k h hk

/-- C13 (blocks of length zero are absent for the counter): for an input with a
block of nonzero length, in either unit, removing a block of length zero at
any index, together with its displacement, whatever it is, leaves the result of
the counter as it is. -/
theorem C13_zero_block_removal (count : Int) (bl disp : List Int) (dispinbytes : Bool)
    (E : Int) (k : Nat) (hbl : bl.length = count.toNat) (hdisp : disp.length = count.toNat)
    (hnz : ∃ b ∈ bl, b ≠ 0) (hk : bl[k]? = some 0) :
    ∃ r : Int, MPIR_Type_indexed_count_contig count bl disp dispinbytes E = .ok r ∧
      MPIR_Type_indexed_count_contig (count - 1) (bl.eraseIdx k) (disp.eraseIdx k)
        dispinbytes E = .ok r := by
  have hklt : k < bl.length := (List.getElem?_eq_some.mp hk).1
  obtain ⟨first, hf⟩ := exists_first_nonzero bl hnz
  have hflt := first_nonzero_lt_length hf
  have hne : first ≠ k := by
    intro h
    subst h
    obtain ⟨_, b, hb, hb0⟩ := hf
    rw [hk] at hb
    exact hb0 (Option.some.inj hb).symm
  have h2 : 2 ≤ bl.length := by omega
  refine ⟨_, count_contig_eq_all_runs dispinbytes E (by omega) hbl hdisp, ?_⟩
  rw [count_contig_eq_all_runs dispinbytes E (by omega)
      (by rw [List.length_eraseIdx, if_pos hklt]; omega)
      (by rw [List.length_eraseIdx, if_pos (by omega)]; omega),
    all_runs_eraseIdx _ bl disp k hk (by omega)]

/-- A witness for C13: removing the block of length zero at displacement 99 from
the lengths 1, 0, 2, 2 at element displacements 0, 99, 7, 9 leaves 2 runs. -/
theorem C13_zero_block_removal_witness :
    MPIR_Type_indexed_count_contig 4 [1, 0, 2, 2] [0, 99, 7, 9] false 4 = .ok 2 ∧
    MPIR_Type_indexed_count_contig 3 [1, 2, 2] [0, 7, 9] false 4 = .ok 2 ∧
    ∃ r : Int, MPIR_Type_indexed_count_contig 4 [1, 0, 2, 2] [0, 99, 7, 9] false 4 = .ok r ∧
      MPIR_Type_indexed_count_contig (4 - 1) ([1, 0, 2, 2].eraseIdx 1)
        ([0, 99, 7, 9].eraseIdx 1) false 4 = .ok r :=
  ⟨by decide, by decide,
   C13_zero_block_removal 4 [1, 0, 2, 2] [0, 99, 7, 9] false 4 1 (by decide) (by decide)
    ⟨1, by decide, by decide⟩ (by decide)⟩

/-- The test in the words of the specification holds exactly when every block
at an index after `first` has the length `blksz0`. -/
theorem all_later_blocks_have_length_iff (bl : List Int) (first : Nat) (blksz0 : Int) :
    all_later_blocks_have_length bl first blksz0 = true ↔
      ∀ (j : Nat) (b : Int), first < j → bl[j]? = some b → b = blksz0 := by
  unfold all_later_blocks_have_length
  rw [List.all_eq_true]
  constructor
  · intro h j b hj hb
    have hmem : b ∈ bl.drop (first + 1) := by
      rw [List.mem_iff_getElem?]
      refine ⟨j - (first + 1), ?_⟩
      rw [List.getElem?_drop, show first + 1 + (j - (first + 1)) = j by omega]
      exact hb
    simpa using h b hmem
  · intro h b hb
    rw [List.mem_iff_getElem?] at hb
    obtain ⟨n, hn⟩ := hb
    rw [List.getElem?_drop] at hn
    simpa using h (first + 1 + n) b (by omega) hn

/-- C16 (the uniform-block-length test): the scan from `first + 1` on, which
decrements `blksz` and stops at the first block of another length, ends with
`blksz` equal to `blocklength_array[first]` or one less, and the comparison
`blksz == blocklength_array[first]` that follows it succeeds if and only if
every block at an index after `first`, a block of length zero included, has the
length of the block at `first`: the code's test is the test in the words of
the specification. -/
theorem C16_uniform_test_refines_spec (count : Int) (bl : List Int) (first : Nat)
    (blksz0 : Int) (hbl : bl.length = count.toNat) (hfirst : bl[first]? = some blksz0) :
    ∃ blksz : Int,
      uniform_blksz_loop bl (count.toNat - (first + 1)) (first + 1) blksz0 = .ok blksz ∧
      (blksz = blksz0 ∨ blksz = blksz0 - 1) ∧
      decide (blksz = blksz0) = all_later_blocks_have_length bl first blksz0 ∧
      (blksz = blksz0 ↔
        ∀ (j : Nat) (b : Int), first < j → bl[j]? = some b → b = blksz0) := by
  have hlt : first < bl.length := (List.getElem?_eq_some.mp hfirst).1
  by_cases hall : ∀ (j : Nat) (b : Int), first < j → bl[j]? = some b → b = blksz0
  · refine ⟨blksz0, ?_, Or.inl rfl, ?_, ?_⟩
    · exact uniform_blksz_loop_all bl blksz0 _ _ (by omega)
        (fun j b hj hb => hall j b (by omega) hb)
    · rw [(all_later_blocks_have_length_iff bl first blksz0).mpr hall]
      simp
    · exact ⟨fun _ => hall, fun _ => rfl⟩
  · have hex : ∃ (j : Nat) (b : Int), first + 1 ≤ j ∧ bl[j]? = some b ∧ b ≠ blksz0 := by
      by_contra hcon
      apply hall
      intro j b hj hb
      by_contra hne
      exact hcon ⟨j, b, by omega, hb, hne⟩
    have hne : ¬ (blksz0 - 1 = blksz0) := by omega
    refine ⟨blksz0 - 1, ?_, Or.inr rfl, ?_, ?_⟩
    · exact uniform_blksz_loop_some bl blksz0 _ _ (by omega) hex
    · have hspec : all_later_blocks_have_length bl first blksz0 = false := by
        cases h : all_later_blocks_have_length bl first blksz0 with
        | false => rfl
        | true => exact absurd ((all_later_blocks_have_length_iff bl first blksz0).mp h) hall
      rw [hspec]
      simp [hne]
    · exact ⟨fun h => absurd h hne, fun h => absurd h hall⟩

/-- A witness for C16: for the lengths 2, 0, 2 the scan ends with `blksz = 1`
and the test fails, because of the block of length zero; for the lengths
2, 2, 2 it ends with `blksz = 2` and the test succeeds. -/
theorem C16_uniform_test_refines_spec_witness :
    uniform_blksz_loop [2, 0, 2] 2 1 2 = .ok 1 ∧
    all_later_blocks_have_length [2, 0, 2] 0 2 = false ∧
    uniform_blksz_loop [2, 2, 2] 2 1 2 = .ok 2 ∧
    all_later_blocks_have_length [2, 2, 2] 0 2 = true ∧
    ∃ blksz : Int,
      uniform_blksz_loop [2, 0, 2] ((3 : Int).toNat - (0 + 1)) (0 + 1) 2 = .ok blksz ∧
      (blksz = 2 ∨ blksz = 2 - 1) ∧
      decide (blksz = 2) = all_later_blocks_have_length [2, 0, 2] 0 2 ∧
      (blksz = 2 ↔
        ∀ (j : Nat) (b : Int), 0 < j → [(2 : Int), 0, 2][j]? = some b → b = 2) :=
  ⟨by decide, by decide, by decide, by decide,
   C16_uniform_test_refines_spec 3 [2, 0, 2] 0 2 (by decide) (by decide)⟩

/-- The sum of a list whose entries all equal `c`. -/
theorem sum_of_all_eq (c : Int) :
    ∀ (l : List Int), (∀ b ∈ l, b = c) → l.sum = (l.length : Int) * c := by
  intro l
  induction l with
  | nil => intro _; simp
  | cons a as ih =>
    intro h
    have ha : a = c := h a (List.mem_cons_self _ _)
    have := ih (fun b hb => h b (List.mem_cons_of_mem _ hb))
    simp only [List.sum_cons, List.length_cons, Nat.cast_add, Nat.cast_one, this, ha]
    ring

/-- C19 (the uniform branch describes the input): for an input with at least 2
runs on which the uniform-block-length test succeeds, the builder returns what
the block-indexed constructor returns for `count - first` blocks of length
`blksz`; this length is not zero, every one of the `count - first` blocks from
index `first` on has this length, so that none of them has length zero, and
`(count - first) * blksz` is the sum of all block lengths. -/
theorem C19_uniform_branch_is_exact (env : DLOOP_Collaborators) (count : Int)
    (bl disp : List Int) (dispinbytes : Bool) (oldtype : MPI_Datatype) (outs : DLOOP_Outputs)
    (first : Nat) (blksz cc : Int) (hbl : bl.length = count.toNat)
    (hf : First_nonzero_at bl first) (hfirst : bl[first]? = some blksz)
    (hrun : MPIR_Type_indexed_count_contig count bl disp dispinbytes (env.get_extent oldtype)
      = .ok cc)
    (hcc : 2 ≤ cc)
    (htest : uniform_blksz_loop bl (count.toNat - (first + 1)) (first + 1) blksz = .ok blksz) :
    MPIR_Dataloop_create_indexed env count bl disp dispinbytes oldtype outs
      = .ok (env.create_blockindexed (count - first) blksz (disp.drop first) dispinbytes
          oldtype outs) ∧
    blksz ≠ 0 ∧
    (∀ j, first ≤ j → j < count.toNat → bl[j]? = some blksz) ∧
    (count - first) * blksz = bl.sum := by
  obtain ⟨hc, hskip, hsum⟩ := create_indexed_prelude hbl hf
  have hlt := first_nonzero_lt_length hf
  have h0 : ¬ (cc = 0) := by omega
  have h1 : ¬ (cc = 1) := by omega
  have hall : ∀ (j : Nat) (b : Int), first < j → bl[j]? = some b → b = blksz := by
    by_contra hcon
    have hex : ∃ (j : Nat) (b : Int), first + 1 ≤ j ∧ bl[j]? = some b ∧ b ≠ blksz := by
      by_contra hcon2
      apply hcon
      intro j b hj hb
      by_contra hne
      exact hcon2 ⟨j, b, by omega, hb, hne⟩
    have := uniform_blksz_loop_some bl blksz _ _ (show first + 1 + (count.toNat - (first + 1))
      = bl.length by omega) hex
    rw [htest] at this
    have h2 : blksz = blksz - 1 := Except.ok.inj this
    omega
  have hge : ∀ j, first ≤ j → j < count.toNat → bl[j]? = some blksz := by
    intro j hj1 hj2
    rcases Nat.eq_or_lt_of_le hj1 with rfl | hj
    · exact hfirst
    · obtain ⟨b, hb⟩ := getElem?_of_lt_length bl (show j < bl.length by omega)
      rw [hb, hall j b hj hb]
  have hne0 : blksz ≠ 0 := by
    obtain ⟨_, b, hb, hb0⟩ := hf
    rw [hfirst] at hb
    rw [Option.some.inj hb]
    exact hb0
  refine ⟨?_, hne0, hge, ?_⟩
  · unfold MPIR_Dataloop_create_indexed
    simp only [hc, ↓reduceIte, hskip, hsum, hrun, h0, h1, in_read_of_getElem? hfirst, htest]
  · rw [← sum_drop_of_leading_zeros bl first hf.1, sum_of_all_eq blksz (bl.drop first)
      (by
        intro b hb
        rw [List.mem_iff_getElem?] at hb
        obtain ⟨n, hn⟩ := hb
        rw [List.getElem?_drop] at hn
        have hn2 : first + n < bl.length := (List.getElem?_eq_some.mp hn).1
        have := hge (first + n) (by omega) (by omega)
        rw [hn] at this
        exact Option.some.inj this)]
    simp only [List.length_drop]
    congr 1
    omega

/-- A witness for C19: lengths 0, 2, 2, 2 at element displacements 7, 0, 10, 20
give a block-indexed descriptor of 4 - 1 = 3 blocks of length 2, and 3 * 2 is
the sum of the lengths. -/
theorem C19_uniform_branch_is_exact_witness :
    MPIR_Dataloop_create_indexed (example_env 4 4) 4 [0, 2, 2, 2] [7, 0, 10, 20] false 7
        no_outputs
      = .ok ((example_env 4 4).create_blockindexed 3 2 [0, 10, 20] false 7 no_outputs) ∧
    (2 : Int) ≠ 0 ∧
    (∀ j, 1 ≤ j → j < (4 : Int).toNat → [(0 : Int), 2, 2, 2][j]? = some 2) ∧
    ((4 : Int) - (1 : Nat)) * 2 = [(0 : Int), 2, 2, 2].sum :=
  C19_uniform_branch_is_exact (example_env 4 4) 4 [0, 2, 2, 2] [7, 0, 10, 20] false 7 no_outputs
    1 2 3 (by decide)
    ⟨fun j hj => by
        have : j = 0 := by omega
        subst this
        rfl, 2, by decide, by decide⟩
    (by decide) (by decide) (by decide) (by decide)

/-- The slots up to `cur_idx` hold the runs when every run is in its slot. -/
theorem written_prefix_eq (s : Copy_state) (rs : List (Int × Int))
    (h1 : s.cur_idx + 1 = rs.length)
    (h5 : ∀ (k : Nat) (o l : Int), rs[k]? = some (o, l) →
      s.out_disp_array[k]? = some o ∧ s.out_blklen_array[k]? = some l) :
    s.out_disp_array.take (s.cur_idx + 1) = rs.map Prod.fst ∧
    s.out_blklen_array.take (s.cur_idx + 1) = rs.map Prod.snd := by
  constructor
  · apply List.ext_getElem?
    intro n
    rw [List.getElem?_take, List.getElem?_map]
    by_cases hn : n < s.cur_idx + 1
    · obtain ⟨⟨o, l⟩, hr⟩ := exists_getElem?_of_lt rs (show n < rs.length by omega)
      rw [if_pos hn, hr, (h5 n o l hr).1]
      rfl
    · rw [if_neg hn, List.getElem?_eq_none (by omega)]
      rfl
  · apply List.ext_getElem?
    intro n
    rw [List.getElem?_take, List.getElem?_map]
    by_cases hn : n < s.cur_idx + 1
    · obtain ⟨⟨o, l⟩, hr⟩ := exists_getElem?_of_lt rs (show n < rs.length by omega)
      rw [if_pos hn, hr, (h5 n o l hr).2]
      rfl
    · rw [if_neg hn, List.getElem?_eq_none (by omega)]
      rfl

/-- The copy loops, run with the count of the counter and output arrays with
room for it, leave the runs of the whole input in the slots up to `cur_idx`. -/
theorem array_copy_loops_all_runs {count : Int} {bl disp : List Int}
    (dispinbytes : Bool) (E cc : Int) (ob od : List Int)
    (hbl : bl.length = count.toNat) (hdisp : disp.length = count.toNat)
    (hnz : ∃ b ∈ bl, b ≠ 0)
    (hrun : MPIR_Type_indexed_count_contig count bl disp dispinbytes E = .ok cc)
    (hob : cc.toNat ≤ ob.length) (hod : cc.toNat ≤ od.length) :
    ∃ s, DLOOP_Type_indexed_array_copy_loops count cc bl disp ob od dispinbytes E = .ok s ∧
      (s.cur_idx : Int) < cc ∧
      s.cur_idx + 1 = (all_runs E bl (byte_displacements dispinbytes E disp)).length ∧
      s.out_disp_array.take (s.cur_idx + 1)
        = (all_runs E bl (byte_displacements dispinbytes E disp)).map Prod.fst ∧
      s.out_blklen_array.take (s.cur_idx + 1)
        = (all_runs E bl (byte_displacements dispinbytes E disp)).map Prod.snd := by
  obtain ⟨first, s, hf, hs, w1, hlt, _, _, _, w5⟩ :=
    array_copy_loops_of_count dispinbytes E cc ob od hbl hdisp hnz hrun hob hod
  have hflt := first_nonzero_lt_length hf
  have heq := input_runs_eq_all_runs E bl (byte_displacements dispinbytes E disp) first hf
    (by rw [byte_displacements_length]; omega)
  rw [heq] at w1 w5
  obtain ⟨p1, p2⟩ := written_prefix_eq s _ w1 w5
  exact ⟨s, hs, hlt, w1, p1, p2⟩

theorem nonzero_block_displacements_cons (b d : Int) (bs ds : List Int) :
    nonzero_block_displacements (b :: bs) (d :: ds)
      = if b = 0 then nonzero_block_displacements bs ds
        else d :: nonzero_block_displacements bs ds := by
  unfold nonzero_block_displacements
  by_cases hb : b = 0
  · simp [hb, List.filter_cons]
  · simp [hb, List.filter_cons]

/-- The displacements of the runs that follow a run at `o` are, in order, among
`o` and the displacements of the blocks of nonzero length. -/
theorem merged_runs_disp_sublist (E : Int) :
    ∀ (bs ds : List Int) (o l : Int),
      ((merged_runs E bs ds o l).map Prod.fst).Sublist (o :: nonzero_block_displacements bs ds) := by
  intro bs
  induction bs with
  | nil => intro ds o l; simp [merged_runs]
  | cons b bs ih =>
    intro ds o l
    cases ds with
    | nil => simp [merged_runs]
    | cons d ds =>
      rw [nonzero_block_displacements_cons]
      unfold merged_runs
      by_cases hb0 : b = 0
      · simp only [hb0, ↓reduceIte]
        exact ih ds o l
      · simp only [hb0, ↓reduceIte]
        by_cases hadj : o + l * E = d
        · simp only [hadj, ↓reduceIte]
          have := ih ds o (l + b)
          rcases List.sublist_cons_iff.mp this with h | ⟨r, hr, h⟩
          · exact List.Sublist.cons _ (List.Sublist.cons _ h)
          · rw [hr]
            exact List.Sublist.cons₂ _ (List.Sublist.cons _ h)
        · simp only [hadj, ↓reduceIte, List.map_cons]
          exact List.Sublist.cons₂ _ (ih ds d b)

/-- The displacements of the runs of an input are, in order, among the
displacements of its blocks of nonzero length. -/
theorem all_runs_disp_sublist (E : Int) :
    ∀ (bl bdisp : List Int),
      ((all_runs E bl bdisp).map Prod.fst).Sublist (nonzero_block_displacements bl bdisp) := by
  intro bl
  induction bl with
  | nil => intro bdisp; cases bdisp <;> simp [all_runs]
  | cons b bs ih =>
    intro bdisp
    cases bdisp with
    | nil => simp [all_runs]
    | cons d ds =>
      rw [nonzero_block_displacements_cons]
      unfold all_runs
      by_cases hb0 : b = 0
      · simp only [hb0, ↓reduceIte]
        exact ih ds
      · simp only [hb0, ↓reduceIte]
        exact merged_runs_disp_sublist E bs ds d b

/-- The first run of an input starts at the byte displacement of the first block
of nonzero length. -/
theorem input_runs_head (E : Int) {bl bdisp : List Int} {first : Nat} {b0 d0 : Int}
    (hb : bl[first]? = some b0) (hd : bdisp[first]? = some d0) :
    ∃ l1, (input_runs E bl bdisp first)[0]? = some (d0, l1) := by
  simp only [input_runs, hb, hd]
  exact merged_runs_head E _ _ d0 b0

/-- C14 (displacements in input order): for an input with a block of nonzero
length the copier (run with the count of the counter and output arrays with
room for it) completes its loops; entry 0 of the displacements it has written
is the displacement of the first block of nonzero length in bytes (times the
extent in element mode, as it is in byte mode); and the displacements it has
written, in the slots up to the final `cur_idx`, are a sublist, in the same
order, of the byte displacements of the input blocks of nonzero length. -/
theorem C14_displacements_in_input_order (count : Int) (bl disp : List Int)
    (dispinbytes : Bool) (E cc : Int) (ob od : List Int)
    (hbl : bl.length = count.toNat) (hdisp : disp.length = count.toNat)
    (hnz : ∃ b ∈ bl, b ≠ 0)
    (hrun : MPIR_Type_indexed_count_contig count bl disp dispinbytes E = .ok cc)
    (hob : cc.toNat ≤ ob.length) (hod : cc.toNat ≤ od.length) :
    ∃ (first : Nat) (d0 : Int) (s : Copy_state), First_nonzero_at bl first ∧
      disp[first]? = some d0 ∧
      DLOOP_Type_indexed_array_copy_loops count cc bl disp ob od dispinbytes E = .ok s ∧
      s.out_disp_array[0]? = some (if dispinbytes then d0 else d0 * E) ∧
      (s.out_disp_array.take (s.cur_idx + 1)).Sublist
        (nonzero_block_displacements bl (byte_displacements dispinbytes E disp)) := by
  obtain ⟨first, s, hf, hs, w1, hlt, _, _, _, w5⟩ :=
    array_copy_loops_of_count dispinbytes E cc ob od hbl hdisp hnz hrun hob hod
  have hflt := first_nonzero_lt_length hf
  obtain ⟨b0, hb0⟩ := getElem?_of_lt_length bl hflt
  obtain ⟨d0, hd0⟩ := getElem?_of_lt_length disp (show first < disp.length by omega)
  have hbd : (byte_displacements dispinbytes E disp)[first]?
      = some (if dispinbytes then d0 else d0 * E) := by
    cases dispinbytes <;> simp [byte_displacements, hd0]
  obtain ⟨l1, hhead⟩ := input_runs_head E hb0 hbd
  have heq := input_runs_eq_all_runs E bl (byte_displacements dispinbytes E disp) first hf
    (by rw [byte_displacements_length]; omega)
  refine ⟨first, d0, s, hf, hd0, hs, (w5 0 _ _ hhead).1, ?_⟩
  rw [heq] at w1 w5
  rw [(written_prefix_eq s _ w1 w5).1]
  exact all_runs_disp_sublist E bl _

/-- A witness for C14: lengths 0, 1, 1, 2, 1 at element displacements 50, 9, 10,
3, 0 over a type of extent 4 are copied as the entries at the byte
displacements 36, 12, 0, in this order, which is not sorted. -/
theorem C14_displacements_in_input_order_witness :
    DLOOP_Type_indexed_array_copy_loops 5 3 [0, 1, 1, 2, 1] [50, 9, 10, 3, 0] [0, 0, 0]
        [0, 0, 0] false 4 = .ok ⟨[2, 2, 1], [36, 12, 0], 2⟩ ∧
    nonzero_block_displacements [0, 1, 1, 2, 1] (byte_displacements false 4 [50, 9, 10, 3, 0])
      = [36, 40, 12, 0] ∧
    ∃ (first : Nat) (d0 : Int) (s : Copy_state), First_nonzero_at [0, 1, 1, 2, 1] first ∧
      [(50 : Int), 9, 10, 3, 0][first]? = some d0 ∧
      DLOOP_Type_indexed_array_copy_loops 5 3 [0, 1, 1, 2, 1] [50, 9, 10, 3, 0] [0, 0, 0]
        [0, 0, 0] false 4 = .ok s ∧
      s.out_disp_array[0]? = some (if false then d0 else d0 * 4) ∧
      (s.out_disp_array.take (s.cur_idx + 1)).Sublist
        (nonzero_block_displacements [0, 1, 1, 2, 1]
          (byte_displacements false 4 [50, 9, 10, 3, 0])) :=
  ⟨by decide, by decide,
   C14_displacements_in_input_order 5 [0, 1, 1, 2, 1] [50, 9, 10, 3, 0] false 4 3 [0, 0, 0]
    [0, 0, 0] (by decide) (by decide) ⟨1, by decide, by decide⟩ (by decide) (by decide)
    (by decide)⟩

/-- Merging conserves elements: the lengths of the runs that follow a run of
`l` elements add up to `l` plus the lengths of the blocks. -/
theorem merged_runs_sum (E : Int) :
    ∀ (bs ds : List Int) (o l : Int), bs.length ≤ ds.length →
      ((merged_runs E bs ds o l).map Prod.snd).sum = l + bs.sum := by
  intro bs
  induction bs with
  | nil => intro ds o l _; simp [merged_runs]
  | cons b bs ih =>
    intro ds o l hlen
    cases ds with
    | nil => simp at hlen
    | cons d ds =>
      have hlen1 : bs.length ≤ ds.length := by simpa using hlen
      unfold merged_runs
      by_cases hb0 : b = 0
      · simp only [hb0, ↓reduceIte, List.sum_cons, zero_add]
        exact ih ds o l hlen1
      · simp only [hb0, ↓reduceIte]
        by_cases hadj : o + l * E = d
        · simp only [hadj, ↓reduceIte, List.sum_cons]
          rw [ih ds o (l + b) hlen1, add_assoc]
        · simp only [hadj, ↓reduceIte, List.map_cons, List.sum_cons]
          rw [ih ds d b hlen1]

/-- The lengths of the runs of an input add up to the sum of its block
lengths. -/
theorem all_runs_sum (E : Int) :
    ∀ (bl bdisp : List Int), bl.length ≤ bdisp.length →
      ((all_runs E bl bdisp).map Prod.snd).sum = bl.sum := by
  intro bl
  induction bl with
  | nil => intro bdisp _; cases bdisp <;> simp [all_runs]
  | cons b bs ih =>
    intro bdisp hlen
    cases bdisp with
    | nil => simp at hlen
    | cons d ds =>
      have hlen1 : bs.length ≤ ds.length := by simpa using hlen
      unfold all_runs
      by_cases hb0 : b = 0
      · simp only [hb0, ↓reduceIte, List.sum_cons, zero_add]
        exact ih ds hlen1
      · simp only [hb0, ↓reduceIte, List.sum_cons]
        exact merged_runs_sum E bs ds d b hlen1

theorem out_write_ok {a a1 : List Int} {i : Nat} {v : Int} (h : out_write a i v = .ok a1) :
    i < a.length ∧ a1.length = a.length := by
  unfold out_write at h
  by_cases hi : i < a.length
  · simp only [hi, ↓reduceIte, Except.ok.injEq] at h
    subst h
    exact ⟨hi, List.length_set _ _ _⟩
  · simp [hi] at h

theorem copy_add_to_block_ok {s s1 : Copy_state} {b : Int}
    (h : copy_add_to_block s b = .ok s1) :
    s1.cur_idx = s.cur_idx ∧ s1.out_blklen_array.length = s.out_blklen_array.length ∧
      s1.out_disp_array.length = s.out_disp_array.length := by
  unfold copy_add_to_block at h
  cases hr : out_read s.out_blklen_array s.cur_idx with
  | error e => simp [hr] at h
  | ok l =>
    simp only [hr] at h
    cases hw : out_write s.out_blklen_array s.cur_idx (l + b) with
    | error e => simp [hw] at h
    | ok a1 =>
      simp only [hw, Except.ok.injEq] at h
      subst h
      exact ⟨rfl, (out_write_ok hw).2, rfl⟩

theorem copy_new_slot_ok {cc : Int} {s s1 : Copy_state} {d b : Int}
    (h : copy_new_slot cc s d b = .ok s1) :
    s1.cur_idx < s1.out_blklen_array.length ∧ s1.cur_idx < s1.out_disp_array.length ∧
      s1.out_blklen_array.length = s.out_blklen_array.length ∧
      s1.out_disp_array.length = s.out_disp_array.length := by
  unfold copy_new_slot at h
  simp only at h
  split_ifs at h with hlt
  cases hw1 : out_write s.out_disp_array (s.cur_idx + 1) d with
  | error e => simp [hw1] at h
  | ok od =>
    simp only [hw1] at h
    cases hw2 : out_write s.out_blklen_array (s.cur_idx + 1) b with
    | error e => simp [hw2] at h
    | ok a1 =>
      simp only [hw2, Except.ok.injEq] at h
      subst h
      have h1 := out_write_ok hw1
      have h2 := out_write_ok hw2
      exact ⟨by simp only; omega, by simp only; omega, h2.2, h1.2⟩

/-- When the byte-mode copy loop ends without an error, the arrays have kept
their sizes and `cur_idx` is a slot of both. -/
theorem array_copy_loop_bytes_ok (bl disp : List Int) (cc E : Int) :
    ∀ (n i : Nat) (s s1 : Copy_state), array_copy_loop_bytes bl disp cc E n i s = .ok s1 →
      s.cur_idx < s.out_blklen_array.length → s.cur_idx < s.out_disp_array.length →
      s1.cur_idx < s1.out_blklen_array.length ∧ s1.cur_idx < s1.out_disp_array.length ∧
        s1.out_blklen_array.length = s.out_blklen_array.length ∧
        s1.out_disp_array.length = s.out_disp_array.length := by
  intro n
  induction n with
  | zero =>
    intro i s s1 h hb hd
    simp only [array_copy_loop_bytes, Except.ok.injEq] at h
    subst h
    exact ⟨hb, hd, rfl, rfl⟩
  | succ n ih =>
    intro i s s1 h hb hd
    unfold array_copy_loop_bytes at h
    cases hr : in_read bl i with
    | error e => simp [hr] at h
    | ok b =>
      simp only [hr] at h
      by_cases hb0 : b = 0
      · simp only [hb0, ↓reduceIte] at h
        exact ih _ _ _ h hb hd
      · simp only [hb0, ↓reduceIte] at h
        cases he : copy_block_end s E with
        | error e => simp [he] at h
        | ok e_cur =>
          simp only [he] at h
          cases hdr : in_read disp i with
          | error e => simp [hdr] at h
          | ok d =>
            simp only [hdr] at h
            by_cases hadj : e_cur = d
            · simp only [hadj, ↓reduceIte] at h
              cases ha : copy_add_to_block s b with
              | error e => simp [ha] at h
              | ok s2 =>
                simp only [ha] at h
                obtain ⟨a1, a2, a3⟩ := copy_add_to_block_ok ha
                obtain ⟨r1, r2, r3, r4⟩ := ih _ _ _ h (by omega) (by omega)
                exact ⟨r1, r2, by omega, by omega⟩
            · simp only [hadj, ↓reduceIte] at h
              cases ha : copy_new_slot cc s d b with
              | error e => simp [ha] at h
              | ok s2 =>
                simp only [ha] at h
                obtain ⟨a1, a2, a3, a4⟩ := copy_new_slot_ok ha
                obtain ⟨r1, r2, r3, r4⟩ := ih _ _ _ h a1 a2
                exact ⟨r1, r2, by omega, by omega⟩

/-- When the copy loops end without an error, the output arrays have a slot
`cur_idx`. -/
theorem array_copy_loops_ok {count cc : Int} {bl disp ob od : List Int} {dispinbytes : Bool}
    {E : Int} {s : Copy_state}
    (h : DLOOP_Type_indexed_array_copy_loops count cc bl disp ob od dispinbytes E = .ok s) :
    s.cur_idx < ob.length ∧ s.cur_idx < od.length := by
  have key : ∀ bdisp : List Int,
      DLOOP_Type_indexed_array_copy_loops count cc bl bdisp ob od true E = .ok s →
      s.cur_idx < ob.length ∧ s.cur_idx < od.length := by
    intro bdisp h
    unfold DLOOP_Type_indexed_array_copy_loops at h
    cases hs : skip_zero_blocks bl count.toNat 0 with
    | error e => simp [hs] at h
    | ok first =>
      simp only [hs] at h
      cases hb : in_read bl first with
      | error e => simp [hb] at h
      | ok b0 =>
        simp only [hb] at h
        cases hw : out_write ob 0 b0 with
        | error e => simp [hw] at h
        | ok ob1 =>
          simp only [hw] at h
          cases hd : in_read bdisp first with
          | error e => simp [hd] at h
          | ok d0 =>
            simp only [hd, Bool.not_true, Bool.false_eq_true, ↓reduceIte] at h
            cases hw2 : out_write od 0 d0 with
            | error e => simp [hw2] at h
            | ok od1 =>
              simp only [hw2] at h
              have h1 := out_write_ok hw
              have h2 := out_write_ok hw2
              obtain ⟨r1, r2, r3, r4⟩ := array_copy_loop_bytes_ok bl bdisp cc E _ _ _ _ h
                (by simp only; omega) (by simp only; omega)
              simp only at r3 r4
              exact ⟨by omega, by omega⟩
  cases dispinbytes with
  | true => exact key disp h
  | false =>
    rw [array_copy_loops_units_agree] at h
    exact key _ h

/-- When the copier returns on the count of the counter, the first
`contig_count` block lengths it has written add up to the sum of the input
block lengths. -/
theorem array_copy_ok_sum {count : Int} {bl disp : List Int} {dispinbytes : Bool}
    {E cc : Int} {ob od ob1 od1 : List Int}
    (hbl : bl.length = count.toNat) (hdisp : disp.length = count.toNat)
    (hnz : ∃ b ∈ bl, b ≠ 0)
    (hrun : MPIR_Type_indexed_count_contig count bl disp dispinbytes E = .ok cc)
    (h : DLOOP_Type_indexed_array_copy count cc bl disp ob od dispinbytes E = .ok (ob1, od1)) :
    (ob1.take cc.toNat).sum = bl.sum := by
  unfold DLOOP_Type_indexed_array_copy at h
  cases hs : DLOOP_Type_indexed_array_copy_loops count cc bl disp ob od dispinbytes E with
  | error e => simp [hs] at h
  | ok s =>
    simp only [hs] at h
    by_cases hfin : (s.cur_idx : Int) = cc - 1
    · simp only [hfin, ↓reduceIte, Except.ok.injEq, Prod.mk.injEq] at h
      obtain ⟨c1, c2⟩ := array_copy_loops_ok hs
      obtain ⟨s2, hs2, _, _, _, p2⟩ := array_copy_loops_all_runs dispinbytes E cc ob od hbl hdisp
        hnz hrun (by omega) (by omega)
      rw [hs] at hs2
      have hss : s = s2 := Except.ok.inj hs2
      subst hss
      rw [← h.1, show cc.toNat = s.cur_idx + 1 by omega, p2]
      exact all_runs_sum E bl _ (by rw [byte_displacements_length]; omega)
    · simp [hfin] at h

/-- C17 (merging conserves elements): for an input with a block of nonzero
length, in either unit, the copier (run with the count of the counter and
output arrays with room for it) completes its loops and the block lengths it
has written, in the slots up to the final `cur_idx`, add up to the sum of all
input block lengths; and whenever the builder returns `MPI_SUCCESS` from its
general indexed branch, the `total_blocks` field of its node is this sum, and
so is the sum of the first `count` entries of the node's `blocksize_array`. -/
theorem C17_merging_conserves_elements (env : DLOOP_Collaborators) (count : Int)
    (bl disp : List Int) (dispinbytes : Bool) (oldtype : MPI_Datatype) (outs : DLOOP_Outputs)
    (cc : Int) (ob od : List Int)
    (hbl : bl.length = count.toNat) (hdisp : disp.length = count.toNat)
    (hnz : ∃ b ∈ bl, b ≠ 0)
    (hrun : MPIR_Type_indexed_count_contig count bl disp dispinbytes (env.get_extent oldtype)
      = .ok cc)
    (hob : cc.toNat ≤ ob.length) (hod : cc.toNat ≤ od.length) :
    (∃ s, DLOOP_Type_indexed_array_copy_loops count cc bl disp ob od dispinbytes
        (env.get_extent oldtype) = .ok s ∧
      (s.out_blklen_array.take (s.cur_idx + 1)).sum = bl.sum) ∧
    (2 ≤ cc →
      (∃ (first j : Nat) (b0 b : Int), First_nonzero_at bl first ∧ bl[first]? = some b0 ∧
        first < j ∧ bl[j]? = some b ∧ b ≠ b0) →
      ∀ outs1, MPIR_Dataloop_create_indexed env count bl disp dispinbytes oldtype outs
          = .ok (MPI_SUCCESS, outs1) →
        ∃ node, outs1.dlp = some node ∧ node.count = cc ∧ node.total_blocks = bl.sum ∧
          (node.blocksize_array.take node.count.toNat).sum = node.total_blocks) := by
  constructor
  · obtain ⟨s, hs, _, _, _, p2⟩ := array_copy_loops_all_runs dispinbytes (env.get_extent oldtype)
      cc ob od hbl hdisp hnz hrun hob hod
    refine ⟨s, hs, ?_⟩
    rw [p2]
    exact all_runs_sum _ bl _ (by rw [byte_displacements_length]; omega)
  · intro hcc hgen outs1 hret
    obtain ⟨first, j, b0, b, hf, hb0, hj, hb, hne⟩ := hgen
    obtain ⟨node, sz, ob1, od1, _, hcopy, hout⟩ :=
      (create_indexed_general_branch_returns env count bl disp dispinbytes oldtype outs first b0
        cc hbl hf hb0 hrun hcc ⟨j, b, hj, hb, hne⟩).2 outs1 hret
    subst hout
    exact ⟨_, rfl, rfl, rfl, array_copy_ok_sum hbl hdisp hnz hrun hcopy⟩

/-- A witness for C17: lengths 1, 1, 2 at element displacements 0, 1, 5 over a
type of extent 4 are copied as the block lengths 2, 2, whose sum 4 is the sum
of the input lengths and the `total_blocks` of the node the builder returns. -/
theorem C17_merging_conserves_elements_witness :
    DLOOP_Type_indexed_array_copy_loops 3 2 [1, 1, 2] [0, 1, 5] [0, 0] [0, 0] false 4
      = .ok ⟨[2, 2], [0, 20], 1⟩ ∧
    MPIR_Dataloop_create_indexed (example_env 4 4) 3 [1, 1, 2] [0, 1, 5] false 7 no_outputs
      = .ok (MPI_SUCCESS,
          ⟨some { kind := ⟨.DLOOP_KIND_INDEXED, true⟩, el_size := 4, el_extent := 4,
                  el_type := 7, count := 2, total_blocks := 4,
                  blocksize_array := [2, 2, 0], offset_array := [0, 20, 0],
                  dataloop := none }, 80⟩) ∧
    ∃ node,
      (DLOOP_Outputs.mk
        (some { kind := ⟨.DLOOP_KIND_INDEXED, true⟩, el_size := 4, el_extent := 4,
                el_type := 7, count := 2, total_blocks := 4,
                blocksize_array := [2, 2, 0], offset_array := [0, 20, 0],
                dataloop := none }) 80).dlp = some node ∧
      node.count = 2 ∧ node.total_blocks = [(1 : Int), 1, 2].sum ∧
      (node.blocksize_array.take node.count.toNat).sum = node.total_blocks :=
  ⟨by decide, by decide,
   (C17_merging_conserves_elements (example_env 4 4) 3 [1, 1, 2] [0, 1, 5] false 7 no_outputs 2
      [0, 0] [0, 0] (by decide) (by decide) ⟨1, by decide, by decide⟩ (by decide) (by decide)
      (by decide)).2 (by decide)
      ⟨0, 2, 1, 2, ⟨fun j hj => absurd hj (Nat.not_lt_zero j), 1, by decide, by decide⟩,
        by decide, by decide, by decide, by decide⟩
      (DLOOP_Outputs.mk
        (some { kind := ⟨.DLOOP_KIND_INDEXED, true⟩, el_size := 4, el_extent := 4,
                el_type := 7, count := 2, total_blocks := 4,
                blocksize_array := [2, 2, 0], offset_array := [0, 20, 0],
                dataloop := none }) 80)
      (by decide)⟩

/-- For a nonzero extent, the runs of an input whose displacements are
multiplied by the extent are the runs for extent 1 with their displacements
multiplied by the extent. -/
theorem all_runs_scaled {E : Int} (hE : E ≠ 0) :
    ∀ (bl disp : List Int),
      all_runs E bl (disp.map (· * E)) = (all_runs 1 bl disp).map (fun r => (r.1 * E, r.2)) := by
  intro bl
  induction bl with
  | nil => intro disp; cases disp <;> simp [all_runs]
  | cons b bs ih =>
    intro disp
    cases disp with
    | nil => simp [all_runs]
    | cons d ds =>
      simp only [List.map_cons]
      unfold all_runs
      by_cases hb0 : b = 0
      · simp only [hb0, ↓reduceIte]
        exact ih ds
      · simp only [hb0, ↓reduceIte]
        exact merged_runs_scaled hE bs ds d b

/-- C18 (the element-unit test of the counter and the byte test of the copier):
in element mode, for an input with a block of nonzero length and a nonzero
extent, the copier (run with the count of the counter and output arrays with
room for it) forms the runs the counter counts, with their displacements
multiplied by the extent: its loops end with `cur_idx + 1` equal to the result
of the counter, so that both its assertions hold and it returns, and the
entries it has written are the runs of the input in element units, the
displacements in bytes. -/
theorem C18_element_and_byte_tests_agree (count : Int) (bl disp : List Int) (E cc : Int)
    (ob od : List Int) (hE : E ≠ 0)
    (hbl : bl.length = count.toNat) (hdisp : disp.length = count.toNat)
    (hnz : ∃ b ∈ bl, b ≠ 0)
    (hrun : MPIR_Type_indexed_count_contig count bl disp false E = .ok cc)
    (hob : cc.toNat ≤ ob.length) (hod : cc.toNat ≤ od.length) :
    ∃ s, DLOOP_Type_indexed_array_copy_loops count cc bl disp ob od false E = .ok s ∧
      (s.cur_idx : Int) + 1 = cc ∧
      DLOOP_Type_indexed_array_copy count cc bl disp ob od false E
        = .ok (s.out_blklen_array, s.out_disp_array) ∧
      cc = ((all_runs 1 bl disp).length : Int) ∧
      s.out_disp_array.take cc.toNat = (all_runs 1 bl disp).map (fun r => r.1 * E) ∧
      s.out_blklen_array.take cc.toNat = (all_runs 1 bl disp).map Prod.snd := by
  have hpos : 0 < count := by
    obtain ⟨first, hf⟩ := exists_first_nonzero bl hnz
    have := first_nonzero_lt_length hf
    omega
  have hcount := count_contig_eq_all_runs false E hpos hbl hdisp
  rw [hrun] at hcount
  have hcc : cc = ((all_runs 1 bl disp).length : Int) := by
    simpa using Except.ok.inj hcount
  obtain ⟨s, hs, _, w1, p1, p2⟩ := array_copy_loops_all_runs false E cc ob od hbl hdisp hnz hrun
    hob hod
  have hbd : byte_displacements false E disp = disp.map (· * E) := by
    simp [byte_displacements]
  rw [hbd, all_runs_scaled hE] at w1 p1 p2
  simp only [List.length_map, List.map_map] at w1 p1 p2
  have hcur : (s.cur_idx : Int) + 1 = cc := by omega
  have htake : cc.toNat = s.cur_idx + 1 := by omega
  refine ⟨s, hs, hcur, ?_, hcc, ?_, ?_⟩
  · unfold DLOOP_Type_indexed_array_copy
    rw [hs]
    have : (s.cur_idx : Int) = cc - 1 := by omega
    simp only [this, ↓reduceIte]
  · rw [htake, p1]
    rfl
  · rw [htake, p2]
    rfl

/-- A witness for C18: lengths 1, 1, 2, 1 at element displacements 3, 4, 9, 11
over a type of extent 8 have 2 runs in element units, (3, 2) and (9, 3), and
the copier writes them at the byte displacements 24 and 72. -/
theorem C18_element_and_byte_tests_agree_witness :
    MPIR_Type_indexed_count_contig 4 [1, 1, 2, 1] [3, 4, 9, 11] false 8 = .ok 2 ∧
    DLOOP_Type_indexed_array_copy 4 2 [1, 1, 2, 1] [3, 4, 9, 11] [0, 0] [0, 0] false 8
      = .ok ([2, 3], [24, 72]) ∧
    all_runs 1 [1, 1, 2, 1] [3, 4, 9, 11] = [(3, 2), (9, 3)] ∧
    ∃ s, DLOOP_Type_indexed_array_copy_loops 4 2 [1, 1, 2, 1] [3, 4, 9, 11] [0, 0] [0, 0]
        false 8 = .ok s ∧
      (s.cur_idx : Int) + 1 = 2 ∧
      DLOOP_Type_indexed_array_copy 4 2 [1, 1, 2, 1] [3, 4, 9, 11] [0, 0] [0, 0] false 8
        = .ok (s.out_blklen_array, s.out_disp_array) ∧
      (2 : Int) = ((all_runs 1 [1, 1, 2, 1] [3, 4, 9, 11]).length : Int) ∧
      s.out_disp_array.take (2 : Int).toNat
        = (all_runs 1 [1, 1, 2, 1] [3, 4, 9, 11]).map (fun r => r.1 * 8) ∧
      s.out_blklen_array.take (2 : Int).toNat
        = (all_runs 1 [1, 1, 2, 1] [3, 4, 9, 11]).map Prod.snd :=
  ⟨by decide, by decide, by decide,
   C18_element_and_byte_tests_agree 4 [1, 1, 2, 1] [3, 4, 9, 11] 8 2 [0, 0] [0, 0] (by decide)
    (by decide) (by decide) ⟨1, by decide, by decide⟩ (by decide) (by decide) (by decide)⟩

/-- C15 (the capacity asked of the allocator), evaluated where it fails: for the
lengths 1, 1, 2 at element displacements 0, 1, 5 the run count is 2 and
`count` is 3.  Over the primitive type 7 the builder asks `MPIR_Dataloop_alloc`
for `count = 3` slots: the node has arrays of 3 slots, of which the last is not
used, and the size of 3 slots.  Over the compound type 100 it asks
`MPIR_Dataloop_alloc_and_copy` for `contig_count = 2` slots. -/
theorem C15_primitive_capacity_is_count :
    MPIR_Type_indexed_count_contig 3 [1, 1, 2] [0, 1, 5] false 4 = .ok 2 ∧
    MPIR_Dataloop_create_indexed (example_env 4 4) 3 [1, 1, 2] [0, 1, 5] false 7 no_outputs
      = .ok (MPI_SUCCESS,
          ⟨some { kind := ⟨.DLOOP_KIND_INDEXED, true⟩, el_size := 4, el_extent := 4,
                  el_type := 7, count := 2, total_blocks := 4,
                  blocksize_array := [2, 2, 0], offset_array := [0, 20, 0],
                  dataloop := none }, 32 + 16 * 3⟩) ∧
    MPIR_Dataloop_create_indexed (example_env 4 4) 3 [1, 1, 2] [0, 1, 5] false 100 no_outputs
      = .ok (MPI_SUCCESS,
          ⟨some { kind := ⟨.DLOOP_KIND_INDEXED, false⟩, el_size := 4, el_extent := 4,
                  el_type := 2, count := 2, total_blocks := 4,
                  blocksize_array := [2, 2], offset_array := [0, 20],
                  dataloop := some 1100 }, 32 + 16 * 2 + 64⟩) ∧
    (∀ (env : DLOOP_Collaborators) (count : Int) (bl disp : List Int) (dispinbytes : Bool)
        (oldtype : MPI_Datatype) (E total cc : Int) (outs : DLOOP_Outputs),
      env.alloc .DLOOP_KIND_INDEXED count = none →
      create_indexed_general env count bl disp dispinbytes oldtype true E total cc outs
        = .ok (-1, outs)) := by
  refine ⟨by decide, by decide, by decide, ?_⟩
  intro env count bl disp dispinbytes oldtype E total cc outs h
  simp [create_indexed_general, h]

/-- In byte mode, and in element mode for a nonzero extent, the copier run with
the count of the counter and output arrays with room for it returns: its loops
end with `cur_idx + 1` equal to that count, and the first `contig_count` slots
of its arrays hold the runs of the input. -/
theorem array_copy_returns {count : Int} {bl disp : List Int}
    (dispinbytes : Bool) (E cc : Int) (ob od : List Int)
    (hbl : bl.length = count.toNat) (hdisp : disp.length = count.toNat)
    (hnz : ∃ b ∈ bl, b ≠ 0)
    (hrun : MPIR_Type_indexed_count_contig count bl disp dispinbytes E = .ok cc)
    (hob : cc.toNat ≤ ob.length) (hod : cc.toNat ≤ od.length)
    (hagree : dispinbytes = true ∨ E ≠ 0) :
    ∃ ob1 od1, DLOOP_Type_indexed_array_copy count cc bl disp ob od dispinbytes E
        = .ok (ob1, od1) ∧
      ob1.take cc.toNat = (all_runs E bl (byte_displacements dispinbytes E disp)).map Prod.snd ∧
      od1.take cc.toNat = (all_runs E bl (byte_displacements dispinbytes E disp)).map Prod.fst := by
  have hpos : 0 < count := by
    obtain ⟨first, hf⟩ := exists_first_nonzero bl hnz
    have := first_nonzero_lt_length hf
    omega
  have hcount := count_contig_eq_all_runs dispinbytes E hpos hbl hdisp
  rw [hrun] at hcount
  have hcc : cc = ((all_runs (if dispinbytes then E else 1) bl disp).length : Int) :=
    Except.ok.inj hcount
  obtain ⟨s, hs, _, w1, p1, p2⟩ := array_copy_loops_all_runs dispinbytes E cc ob od hbl hdisp hnz
    hrun hob hod
  have hlen : (all_runs E bl (byte_displacements dispinbytes E disp)).length
      = (all_runs (if dispinbytes then E else 1) bl disp).length := by
    cases dispinbytes with
    | true => simp [byte_displacements]
    | false =>
      have hE : E ≠ 0 := by
        rcases hagree with h | h
        · exact absurd h (by decide)
        · exact h
      have hbd : byte_displacements false E disp = disp.map (· * E) := by
        simp [byte_displacements]
      rw [hbd, all_runs_scaled hE, List.length_map]
      simp
  have htake : cc.toNat = s.cur_idx + 1 := by omega
  refine ⟨s.out_blklen_array, s.out_disp_array, ?_, ?_, ?_⟩
  · unfold DLOOP_Type_indexed_array_copy
    rw [hs]
    have : (s.cur_idx : Int) = cc - 1 := by omega
    simp only [this, ↓reduceIte]
  · rw [htake, p2]
  · rw [htake, p1]

/-- What the general indexed branch builds, in byte mode and in element mode for
a nonzero extent, when the allocator gives a node with room for `contig_count`
entries: the builder returns `MPI_SUCCESS`, and the outputs are the size the
allocator has given and the node with kind indexed, the final flag set exactly
for a primitive base type, `count` the run count, `total_blocks` the sum of the
block lengths, and arrays whose first `count` entries are the runs of the
input. -/
theorem create_indexed_general_branch_builds (env : DLOOP_Collaborators) (count : Int)
    (bl disp : List Int) (dispinbytes : Bool) (oldtype : MPI_Datatype) (outs : DLOOP_Outputs)
    (first : Nat) (blksz cc : Int) (hbl : bl.length = count.toNat)
    (hf : First_nonzero_at bl first) (hfirst : bl[first]? = some blksz)
    (hrun : MPIR_Type_indexed_count_contig count bl disp dispinbytes (env.get_extent oldtype)
      = .ok cc)
    (hcc : 2 ≤ cc)
    (hnon : ∃ (j : Nat) (b : Int), first < j ∧ bl[j]? = some b ∧ b ≠ blksz)
    (node : MPIR_Dataloop) (sz : Int)
    (halloc : (if env.hasloop oldtype then
        env.alloc_and_copy .DLOOP_KIND_INDEXED cc (env.get_loopptr oldtype)
          (env.get_loopsize oldtype)
      else env.alloc .DLOOP_KIND_INDEXED count) = some (node, sz))
    (hdisp : disp.length = count.toNat)
    (hob : cc.toNat ≤ node.blocksize_array.length) (hod : cc.toNat ≤ node.offset_array.length)
    (hagree : dispinbytes = true ∨ env.get_extent oldtype ≠ 0) :
    ∃ ob od : List Int,
      MPIR_Dataloop_create_indexed env count bl disp dispinbytes oldtype outs
        = .ok (MPI_SUCCESS,
            ⟨some { kind := ⟨.DLOOP_KIND_INDEXED, !env.hasloop oldtype⟩
                    el_size := if env.hasloop oldtype then env.get_size oldtype
                               else env.get_extent oldtype
                    el_extent := env.get_extent oldtype
                    el_type := if env.hasloop oldtype then env.get_basic_type oldtype
                               else oldtype
                    count := cc
                    total_blocks := bl.sum
                    blocksize_array := ob
                    offset_array := od
                    dataloop := node.dataloop }, sz⟩) ∧
      ob.take cc.toNat
        = (all_runs (env.get_extent oldtype) bl
            (byte_displacements dispinbytes (env.get_extent oldtype) disp)).map Prod.snd ∧
      od.take cc.toNat
        = (all_runs (env.get_extent oldtype) bl
            (byte_displacements dispinbytes (env.get_extent oldtype) disp)).map Prod.fst := by
  have hnz : ∃ b ∈ bl, b ≠ 0 := by
    obtain ⟨_, b, hb, hb0⟩ := hf
    exact ⟨b, List.getElem?_mem hb, hb0⟩
  obtain ⟨ob, od, hcopy, p1, p2⟩ := array_copy_returns dispinbytes (env.get_extent oldtype) cc
    node.blocksize_array node.offset_array hbl hdisp hnz hrun hob hod hagree
  refine ⟨ob, od, ?_, p1, p2⟩
  rw [create_indexed_eq_general env disp dispinbytes oldtype outs hbl hf hfirst hrun hcc hnon]
  unfold create_indexed_general
  cases hh : env.hasloop oldtype with
  | true =>
    simp only [hh, ↓reduceIte] at halloc
    simp only [↓reduceIte, Bool.false_eq_true, Bool.not_true, halloc, hcopy]
  | false =>
    simp only [hh, Bool.false_eq_true, ↓reduceIte] at halloc
    simp only [↓reduceIte, Bool.false_eq_true, Bool.not_false, halloc, hcopy]

/-- C5, amended (uniform block-length collapse): for an input whose run count is
at least 2, if every block after the first block of nonzero length, the blocks
of length 0 included, has the length of that block, the builder returns what
the block-indexed constructor returns for `count - first` blocks of that
length and the displacements from index `first` on.  Otherwise it builds a
general indexed descriptor: it returns what its general indexed branch
returns; this is -1, with the outputs as they were, when the allocator gives no
node; whenever it is `MPI_SUCCESS`, the outputs are the node of the allocator
with kind indexed, the run count, the sum of the block lengths, the arrays of
the copier and the size the allocator has given; and it is `MPI_SUCCESS` with
such a node, whose arrays hold the runs of the input in their first entries,
when the allocator gives a node with room for the run count, in byte mode and
in element mode for a nonzero extent. -/
theorem C5_uniform_or_general (env : DLOOP_Collaborators) (count : Int)
    (bl disp : List Int) (dispinbytes : Bool) (oldtype : MPI_Datatype) (outs : DLOOP_Outputs)
    (first : Nat) (blksz cc : Int) (hbl : bl.length = count.toNat)
    (hf : First_nonzero_at bl first) (hfirst : bl[first]? = some blksz)
    (hrun : MPIR_Type_indexed_count_contig count bl disp dispinbytes (env.get_extent oldtype)
      = .ok cc)
    (hcc : 2 ≤ cc) :
    ((∀ (j : Nat) (b : Int), first < j → bl[j]? = some b → b = blksz) →
      MPIR_Dataloop_create_indexed env count bl disp dispinbytes oldtype outs
        = .ok (env.create_blockindexed (count - first) blksz (disp.drop first) dispinbytes
            oldtype outs)) ∧
    ((∃ (j : Nat) (b : Int), first < j ∧ bl[j]? = some b ∧ b ≠ blksz) →
      MPIR_Dataloop_create_indexed env count bl disp dispinbytes oldtype outs
        = create_indexed_general env count bl disp dispinbytes oldtype
            (if env.hasloop oldtype then false else true) (env.get_extent oldtype)
            bl.sum cc outs ∧
      ((if env.hasloop oldtype then
          env.alloc_and_copy .DLOOP_KIND_INDEXED cc (env.get_loopptr oldtype)
            (env.get_loopsize oldtype)
        else env.alloc .DLOOP_KIND_INDEXED count) = none →
        MPIR_Dataloop_create_indexed env count bl disp dispinbytes oldtype outs
          = .ok (-1, outs)) ∧
      (∀ outs1, MPIR_Dataloop_create_indexed env count bl disp dispinbytes oldtype outs
          = .ok (MPI_SUCCESS, outs1) →
        ∃ (node : MPIR_Dataloop) (sz : Int) (ob od : List Int),
          (if env.hasloop oldtype then
            env.alloc_and_copy .DLOOP_KIND_INDEXED cc (env.get_loopptr oldtype)
              (env.get_loopsize oldtype)
          else env.alloc .DLOOP_KIND_INDEXED count) = some (node, sz) ∧
          DLOOP_Type_indexed_array_copy count cc bl disp node.blocksize_array node.offset_array
            dispinbytes (env.get_extent oldtype) = .ok (ob, od) ∧
          outs1 = ⟨some { kind := ⟨.DLOOP_KIND_INDEXED, !env.hasloop oldtype⟩
                          el_size := if env.hasloop oldtype then env.get_size oldtype
                                     else env.get_extent oldtype
                          el_extent := env.get_extent oldtype
                          el_type := if env.hasloop oldtype then env.get_basic_type oldtype
                                     else oldtype
                          count := cc
                          total_blocks := bl.sum
                          blocksize_array := ob
                          offset_array := od
                          dataloop := node.dataloop }, sz⟩) ∧
      (∀ (node : MPIR_Dataloop) (sz : Int),
        (if env.hasloop oldtype then
          env.alloc_and_copy .DLOOP_KIND_INDEXED cc (env.get_loopptr oldtype)
            (env.get_loopsize oldtype)
        else env.alloc .DLOOP_KIND_INDEXED count) = some (node, sz) →
        disp.length = count.toNat →
        cc.toNat ≤ node.blocksize_array.length → cc.toNat ≤ node.offset_array.length →
        (dispinbytes = true ∨ env.get_extent oldtype ≠ 0) →
        ∃ ob od : List Int,
          MPIR_Dataloop_create_indexed env count bl disp dispinbytes oldtype outs
            = .ok (MPI_SUCCESS,
                ⟨some { kind := ⟨.DLOOP_KIND_INDEXED, !env.hasloop oldtype⟩
                        el_size := if env.hasloop oldtype then env.get_size oldtype
                                   else env.get_extent oldtype
                        el_extent := env.get_extent oldtype
                        el_type := if env.hasloop oldtype then env.get_basic_type oldtype
                                   else oldtype
                        count := cc
                        total_blocks := bl.sum
                        blocksize_array := ob
                        offset_array := od
                        dataloop := node.dataloop }, sz⟩) ∧
          ob.take cc.toNat
            = (all_runs (env.get_extent oldtype) bl
                (byte_displacements dispinbytes (env.get_extent oldtype) disp)).map Prod.snd ∧
          od.take cc.toNat
            = (all_runs (env.get_extent oldtype) bl
                (byte_displacements dispinbytes (env.get_extent oldtype) disp)).map
                  Prod.fst)) := by
  obtain ⟨hc, hskip, hsum⟩ := create_indexed_prelude hbl hf
  have hlt := first_nonzero_lt_length hf
  have h0 : ¬ (cc = 0) := by omega
  have h1 : ¬ (cc = 1) := by omega
  constructor
  · intro hall
    have hu := uniform_blksz_loop_all bl blksz (count.toNat - (first + 1)) (first + 1)
      (by omega) (fun j b hj hb => hall j b (by omega) hb)
    unfold MPIR_Dataloop_create_indexed
    simp only [hc, ↓reduceIte, hskip, hsum, hrun, h0, h1, in_read_of_getElem? hfirst, hu]
  · intro hex
    have hret := create_indexed_general_branch_returns env count bl disp dispinbytes oldtype outs
      first blksz cc hbl hf hfirst hrun hcc hex
    refine ⟨create_indexed_eq_general env disp dispinbytes oldtype outs hbl hf hfirst hrun hcc
      hex, hret.1, hret.2, ?_⟩
    intro node sz halloc hdisp hob hod hagree
    exact create_indexed_general_branch_builds env count bl disp dispinbytes oldtype outs first
      blksz cc hbl hf hfirst hrun hcc hex node sz halloc hdisp hob hod hagree

/-- Witnesses for C5: lengths 2, 2, 2 at element displacements 0, 10, 20 give a
block-indexed descriptor with 3 blocks of length 2; lengths 2, 0, 2 at element
displacements 0, 99, 10 over a primitive type of extent 4 give an indexed node
with 2 blocks and 4 elements, whose arrays start with the lengths 2, 2 and the
byte displacements 0, 40. -/
theorem C5_uniform_or_general_witness :
    MPIR_Dataloop_create_indexed (example_env 4 4) 3 [2, 2, 2] [0, 10, 20] false 7 no_outputs
      = .ok ((example_env 4 4).create_blockindexed 3 2 [0, 10, 20] false 7 no_outputs) ∧
    all_runs 4 [2, 0, 2] (byte_displacements false 4 [0, 99, 10]) = [(0, 2), (40, 2)] ∧
    ∃ ob od : List Int,
      MPIR_Dataloop_create_indexed (example_env 4 4) 3 [2, 0, 2] [0, 99, 10] false 7 no_outputs
        = .ok (MPI_SUCCESS,
            ⟨some { kind := ⟨.DLOOP_KIND_INDEXED, true⟩, el_size := 4, el_extent := 4,
                    el_type := 7, count := 2, total_blocks := 4,
                    blocksize_array := ob, offset_array := od,
                    dataloop := none }, 80⟩) ∧
      ob.take 2 = (all_runs 4 [2, 0, 2] (byte_displacements false 4 [0, 99, 10])).map Prod.snd ∧
      od.take 2 = (all_runs 4 [2, 0, 2] (byte_displacements false 4 [0, 99, 10])).map Prod.fst :=
  ⟨(C5_uniform_or_general (example_env 4 4) 3 [2, 2, 2] [0, 10, 20] false 7 no_outputs 0 2 3
      (by decide) ⟨fun j hj => absurd hj (Nat.not_lt_zero j), 2, by decide, by decide⟩
      (by decide) (by decide) (by decide)).1
      (by
        intro j b hj hb
        have hj3 : j < 3 := (List.getElem?_eq_some.mp hb).1
        interval_cases j <;> simp_all),
   by decide,
   ((C5_uniform_or_general (example_env 4 4) 3 [2, 0, 2] [0, 99, 10] false 7 no_outputs 0 2 2
      (by decide) ⟨fun j hj => absurd hj (Nat.not_lt_zero j), 2, by decide, by decide⟩
      (by decide) (by decide) (by decide)).2
      ⟨1, 0, by decide, by decide, by decide⟩).2.2.2
      (blank_node 3 none) 80 (by decide) (by decide) (by decide) (by decide)
      (Or.inr (by decide))⟩

end Dataloop
